import Mathlib

/-!  Verification development for the merge engine of `merge_no_api.py`.

A pandas `DataFrame` is modelled shallowly as a list of column names
together with a list of rows, each row a list of optional string values
(`none` models a null/NaN cell; the code never computes with cell values,
it only copies and compares them, so strings suffice for all scalars).

The pandas operations actually exercised by the code are modelled after
their documented semantics:

* `df.merge(r, left_on=lk, right_on=rk, how="left")` keeps every left row,
  in order; a left row with k >= 1 key matches produces k output rows (in
  right-frame order) and an unmatched left row produces one output row
  padded with nulls on the right side.  Null keys compare equal to null
  keys (pandas matches NaN keys in merges).  When `lk = rk` the key column
  appears once in the result (left values); otherwise both key columns are
  kept.  A non-key label occurring on both sides is suffixed `_x` on the
  left occurrence and `_y` on the right occurrence.
* `df.rename(columns=m)` replaces every label that is a key of `m`,
  simultaneously, leaving other labels alone.
* `df[[c1, ..., cn]]` selects the named columns in the given order.
* `df[c] = None` for a fresh label `c` appends an all-null column.
* `df.copy()` is a defensive deep copy, hence the identity on the
  immutable values of this model.
-/

namespace SFMerge

abbrev Val := Option String

structure Frame where
  cols : List String
  rows : List (List Val)
deriving Repr, DecidableEq

/-- Well-formedness: every row has one cell per column. -/
def Frame.WF (f : Frame) : Prop := ∀ r ∈ f.rows, r.length = f.cols.length

/-- Value of column `c` in a row, reading column names and cells in
parallel; the first occurrence of `c` wins, matching a pandas label
lookup on a duplicate-free index. -/
def cellOf (cols : List String) (row : List Val) (c : String) : Val :=
  match cols, row with
  | c0 :: cs, v :: vs => if c0 = c then v else cellOf cs vs c
  | _, _ => none

def Frame.cell (f : Frame) (row : List Val) (c : String) : Val := cellOf f.cols row c

/-- The values of one column, in row order. -/
def colVals (f : Frame) (c : String) : List Val :=
  f.rows.map (fun r => cellOf f.cols r c)

/-- pandas `DataFrame.copy()` (lines 73-74, 85 of the source): a defensive
deep copy, the identity on the immutable values of this model. -/
def Frame.copy (f : Frame) : Frame := f

/-- pandas `df[[c1, ..., cn]]`. -/
def Frame.select (f : Frame) (cs : List String) : Frame :=
  ⟨cs, f.rows.map (fun row => cs.map (fun c => cellOf f.cols row c))⟩

/-- pandas `df.rename(columns=m)` with `m` an association list. -/
def Frame.rename (f : Frame) (m : List (String × String)) : Frame :=
  ⟨f.cols.map (fun c => (List.lookup c m).getD c), f.rows⟩

/-- pandas `df[c] = None` for a label `c` not yet present. -/
def Frame.addNullCol (f : Frame) (c : String) : Frame :=
  ⟨f.cols ++ [c], f.rows.map (fun r => r ++ [none])⟩

/-- Row block of a pandas left merge: every left row in order; matches are
the right rows whose `rk` cell equals the left row's `lk` cell (null equals
null, as pandas matches NaN merge keys); an unmatched left row is padded
with `pad` nulls, a matched one is extended with `proj` of each matching
right row, in right order. -/
def joinRows (lcols : List String) (lrows : List (List Val)) (rcols : List String)
    (rrows : List (List Val)) (lk rk : String) (pad : Nat)
    (proj : List Val → List Val) : List (List Val) :=
  match lrows with
  | [] => []
  | lrow :: rest =>
    (let key := cellOf lcols lrow lk
     let ms := rrows.filter (fun rrow => decide (cellOf rcols rrow rk = key))
     if ms.isEmpty then [lrow ++ List.replicate pad (none : Val)]
     else ms.map (fun rrow => lrow ++ proj rrow))
    ++ joinRows lcols rest rcols rrows lk rk pad proj

/-- pandas `l.merge(r, left_on=lk, right_on=rk, how="left")`. -/
def Frame.merge (l r : Frame) (lk rk : String) : Frame :=
  if lk = rk then
    ⟨l.cols.map (fun c => if c ≠ rk ∧ c ∈ r.cols then c ++ "_x" else c)
       ++ (r.cols.erase rk).map (fun c => if c ≠ rk ∧ c ∈ l.cols then c ++ "_y" else c),
     joinRows l.cols l.rows r.cols r.rows lk rk (r.cols.length - 1)
       (fun rrow => rrow.eraseIdx (r.cols.findIdx (fun c => decide (c = rk))))⟩
  else
    ⟨l.cols.map (fun c => if c ∈ r.cols then c ++ "_x" else c)
       ++ r.cols.map (fun c => if c ∈ l.cols then c ++ "_y" else c),
     joinRows l.cols l.rows r.cols r.rows lk rk r.cols.length (fun rrow => rrow)⟩

/-- Python dict assignment `m[k] = v`: overwrite in place if the key
exists, else append (insertion order preserved, as for a Python dict). -/
def dictInsert (m : List (String × String)) (k v : String) : List (String × String) :=
  if m.any (fun p => decide (p.1 = k)) then
    m.map (fun p => if p.1 = k then (k, v) else p)
  else m ++ [(k, v)]

/-- `parse_colmap` (source lines 38-48).  The Python parameter is a string
(`None` behaves like the empty string under `if not arg`). -/
def parse_colmap (arg : String) : Except String (List (String × String)) :=
  if arg = "" then .ok []
  else
    let pairs := ((arg.splitOn ",").map String.trim).filter (fun p => decide (p ≠ ""))
    pairs.foldlM
      (fun m pair =>
        if pair.contains ':' then
          let parts := pair.splitOn ":"
          Except.ok (dictInsert m (parts.headD "").trim
            (String.intercalate ":" parts.tail).trim)
        else
          Except.error ("Bad metrics column pair: " ++ pair ++ ". Use new_name:existing_header"))
      []

/-- Candidate channel columns, in priority order (source line 52). -/
def channelCandidates : List String :=
  ["Account.YouTube_Channel_ID__c", "YouTube_Channel_ID__c", "channel_id", "Channel_ID__c"]

/-- `_find_channel_column` (source lines 51-55). -/
def _find_channel_column (opps : Frame) : Option String :=
  channelCandidates.find? (fun c => decide (c ∈ opps.cols))

/-- Candidate account columns, in priority order (source line 59). -/
def accountCandidates : List String := ["Account.Name", "account_name", "Account"]

/-- `_select_account_column` (source lines 58-62). -/
def _select_account_column (opps : Frame) : Option String :=
  accountCandidates.find? (fun c => decide (c ∈ opps.cols))

/-- The five metric fields synthesized when absent, in source order
(source line 106). -/
def metricFields : List String :=
  ["views_30d", "audience_size", "category", "growth_30d_pct", "channel_name"]

/-- The six metrics-side columns selected for the join (source lines 111-118). -/
def joinedMetricCols : List String :=
  ["channel_id", "channel_name", "views_30d", "audience_size", "category", "growth_30d_pct"]

/-- The dict inversion `{v: k for k, v in metrics_colmap.items()}`
(source line 101); a later pair with the same source header wins. -/
def invertColmap (m : List (String × String)) : List (String × String) :=
  m.foldl (fun acc p => dictInsert acc p.2 p.1) []

/-- The metrics table after the conditional rename (source lines 100-101). -/
def renamedMetrics (metrics : Frame) (cm : List (String × String)) : Frame :=
  if cm.isEmpty then metrics else metrics.rename (invertColmap cm)

/-- The loop adding absent metric fields as all-null columns
(source lines 106-108). -/
def addMissingMetricCols (f : Frame) : Frame :=
  metricFields.foldl (fun acc c => if c ∈ acc.cols then acc else acc.addNullCol c) f

/-- Rename, `channel_id` requirement, and null-column synthesis on the
metrics table (source lines 100-108). -/
def prepMetrics (metrics : Frame) (cm : List (String × String)) : Except String Frame :=
  let m := renamedMetrics metrics cm
  if "channel_id" ∉ m.cols then
    .error "Metrics CSV must include \x27channel_id\x27 (or map it via --metrics-cols)."
  else .ok (addMissingMetricCols m)

/-- Channel-column resolution with the channel-map fallback
(source lines 77-98): yields the (possibly map-joined) opportunity table,
the join key, and whether the map was used. -/
def resolveOpps (opps : Frame) (map_df : Option Frame) :
    Except String (Frame × String × Bool) :=
  match _find_channel_column opps with
  | some c => .ok (opps, c, false)
  | none =>
    match map_df with
    | none =>
      .error "Opps CSV has no channel_id column. Provide a channel map with account_name and channel_id."
    | some m =>
      let cmap := m.copy
      if "account_name" ∉ cmap.cols ∨ "channel_id" ∉ cmap.cols then
        .error "channel_map.csv must include: account_name, channel_id"
      else
        match _select_account_column opps with
        | none =>
          .error "Couldn\x27t find Account.Name column in opps to join with channel_map."
        | some acct =>
          .ok (Frame.merge opps (cmap.select ["account_name", "channel_id"]) acct "account_name",
               "channel_id", true)

/-- The result frame plus the provenance metadata stored in
`merged.attrs` (source lines 143-144). -/
structure MergeResult where
  frame : Frame
  channel_column : String
  map_used : Bool
deriving Repr, DecidableEq

/-- The fixed preferred column order (source lines 124-139). -/
def preferredCols (channel_col : String) : List String :=
  ["Account.Id", "Account.Name", "Id", "Name", "StageName", "Amount", "CloseDate",
   "Owner.Name", channel_col, "channel_name", "views_30d", "audience_size", "category",
   "growth_30d_pct"]

/-- The reordered column list (source line 140). -/
def reorderList (merged : Frame) (channel_col : String) : List String :=
  (preferredCols channel_col).filter (fun c => decide (c ∈ merged.cols))
    ++ merged.cols.filter (fun c => decide (c ∉ preferredCols channel_col))

/-- The column reordering `merged = merged[cols]` (source lines 140-141). -/
def reorderCols (merged : Frame) (channel_col : String) : Frame :=
  merged.select (reorderList merged channel_col)

/-- `merge_data` (source lines 65-146). -/
def merge_data (opps_df metrics_df : Frame) (map_df : Option Frame)
    (metrics_colmap : List (String × String)) : Except String MergeResult := do
  let opps := opps_df.copy
  let metrics := metrics_df.copy
  let (opps2, channel_col, map_used) ← resolveOpps opps map_df
  let metrics2 ← prepMetrics metrics metrics_colmap
  let merged := Frame.merge opps2 (metrics2.select joinedMetricCols) channel_col "channel_id"
  .ok ⟨reorderCols merged channel_col, channel_col, map_used⟩

/-- An empty data frame. -/
def emptyFrame : Frame := ⟨[], []⟩

/-- A store of Python `DataFrame` objects: the object identity of a frame
is its index, allocation appends. -/
abbrev Store := List Frame

/-- Read the frame with object identity `i`. -/
def readF (σ : Store) (i : Nat) : Frame := σ.getD i emptyFrame

/-- State-passing rendition of the tail of `merge_data` (source lines
100-146), mirroring which Python statements create fresh frames and which
mutate one in place: `metrics.rename` (line 101), `opps.merge` (line 110)
and `merged[cols]` (line 141) each produce a fresh frame; the loop
`metrics[c] = None` (lines 106-108) mutates the metrics copy in place;
the `merged.attrs` assignments (lines 143-144) touch only the freshly
created result frame.  `oppsCur` and `metP` are the identities bound to
the local variables `opps` and `metrics` at line 100. -/
def merge_dataS_finish (σ : Store) (oppsCur metP : Nat) (channel_col : String)
    (_map_used : Bool) (cm : List (String × String)) : Except String Nat × Store :=
  let σm := if cm.isEmpty then σ else σ ++ [(readF σ metP).rename (invertColmap cm)]
  let metCur := if cm.isEmpty then metP else σ.length
  if "channel_id" ∉ (readF σm metCur).cols then
    (.error "Metrics CSV must include \x27channel_id\x27 (or map it via --metrics-cols).", σm)
  else
    let σ2 := σm.set metCur (addMissingMetricCols (readF σm metCur))
    let merged := Frame.merge (readF σ2 oppsCur)
      ((readF σ2 metCur).select joinedMetricCols) channel_col "channel_id"
    let σ3 := σ2 ++ [merged] ++ [reorderCols merged channel_col]
    (.ok (σ2.length + 1), σ3)

/-- State-passing rendition of `merge_data` (source lines 65-98): the two
defensive copies at lines 73-74 allocate fresh frames, as does the copy of
the channel map at line 85 and the map join at lines 91-96 (rebinding the
local `opps`).  The frames named by the caller-supplied identities are
never written. -/
def merge_dataS (σ0 : Store) (oppsId metricsId : Nat) (mapId : Option Nat)
    (cm : List (String × String)) : Except String Nat × Store :=
  let σ1 := σ0 ++ [(readF σ0 oppsId).copy]
  let oppsP := σ0.length
  let σ2 := σ1 ++ [(readF σ0 metricsId).copy]
  let metP := σ1.length
  match _find_channel_column (readF σ2 oppsP) with
  | some c => merge_dataS_finish σ2 oppsP metP c false cm
  | none =>
    match mapId with
    | none =>
      (.error "Opps CSV has no channel_id column. Provide a channel map with account_name and channel_id.",
       σ2)
    | some mi =>
      let σ3 := σ2 ++ [(readF σ2 mi).copy]
      let cmapP := σ2.length
      if "account_name" ∉ (readF σ3 cmapP).cols ∨ "channel_id" ∉ (readF σ3 cmapP).cols then
        (.error "channel_map.csv must include: account_name, channel_id", σ3)
      else
        match _select_account_column (readF σ3 oppsP) with
        | none =>
          (.error "Couldn\x27t find Account.Name column in opps to join with channel_map.", σ3)
        | some acct =>
          let σ4 := σ3 ++
            [Frame.merge (readF σ3 oppsP) ((readF σ3 cmapP).select ["account_name", "channel_id"])
              acct "account_name"]
          merge_dataS_finish σ4 σ3.length metP "channel_id" true cm

/-- True when a message mentions the string `channel_id`. -/
def citesChannelId (msg : String) : Bool :=
  msg.data.tails.any (fun t => "channel_id".data.isPrefixOf t)

/-- Behaviour of the CLI entry point `main` (source lines 149-171): with an
empty argument list it prints the usage text and returns (process exit code
0); otherwise it proceeds to argparse and the merge. -/
inductive MainBehavior where
  | usageThenExitZero
  | argparseRun (argv : List String)
deriving Repr, DecidableEq

/-- `main` (source lines 160-171), up to the point where the excluded
argparse collaborator takes over. -/
def main (argv : List String) : MainBehavior :=
  if argv = [] then .usageThenExitZero else .argparseRun argv

/-- The process exit code determined by the modelled prologue: a normal
return after printing usage exits with code 0; `none` means the exit code
is decided later (by argparse or the merge). -/
def MainBehavior.exitCode : MainBehavior → Option Nat
  | .usageThenExitZero => some 0
  | .argparseRun _ => none

/-- The merge result of `wOpps` with `wMetrics` (direct path). -/
def c1WRes : MergeResult :=
  ⟨⟨["Account.Name", "channel_id", "channel_name", "views_30d", "audience_size",
      "category", "growth_30d_pct"],
    [[some "Acme", some "UC1", none, some "1000", none, none, none]]⟩,
   "channel_id", false⟩

instance decidableWF (f : Frame) : Decidable f.WF :=
  inferInstanceAs (Decidable (∀ r ∈ f.rows, r.length = f.cols.length))

/-- The right-hand extension a left row receives in a left merge with
duplicate-free right keys: the projected first matching right row, or
`pad` nulls when no right row matches. -/
def rightExt (rcols : List String) (rrows : List (List Val)) (rk : String) (pad : Nat)
    (proj : List Val → List Val) (key : Val) : List Val :=
  match rrows.find? (fun rrow => decide (cellOf rcols rrow rk = key)) with
  | none => List.replicate pad none
  | some rrow => proj rrow

/-- Sample opportunity table used by witnesses. -/
def wOpps : Frame := ⟨["Account.Name", "channel_id"], [[some "Acme", some "UC1"]]⟩

/-- Sample metrics table used by witnesses. -/
def wMetrics : Frame := ⟨["channel_id", "views_30d"], [[some "UC1", some "1000"]]⟩

/-- Sample channel map used by witnesses. -/
def wMap : Frame := ⟨["account_name", "channel_id"], [[some "Acme", some "UC1"]]⟩

/-- Sample opportunity table without a channel column, used by witnesses. -/
def wOppsNoCh : Frame := ⟨["Account.Name"], [[some "Acme"], [some "Bob"]]⟩

/-- The merge result of `wOppsNoCh` with `wMetrics` through `wMap`. -/
def wRes10 : MergeResult :=
  ⟨⟨["Account.Name", "channel_id", "channel_name", "views_30d", "audience_size",
      "category", "growth_30d_pct", "account_name"],
    [[some "Acme", some "UC1", none, some "1000", none, none, none, some "Acme"],
     [some "Bob", none, none, none, none, none, none, none]]⟩,
   "channel_id", true⟩

/-! ## Lemmas about cell lookup -/

theorem cellOf_nil_cols (a : List Val) (c : String) : cellOf [] a c = none := by
  cases a <;> rfl

theorem cellOf_nil_row (A : List String) (c : String) : cellOf A [] c = none := by
  cases A <;> rfl

theorem cellOf_append (A B : List String) (a b : List Val) (c : String)
    (h : a.length = A.length) :
    cellOf (A ++ B) (a ++ b) c = if c ∈ A then cellOf A a c else cellOf B b c := by
  induction A generalizing a with
  | nil =>
    have ha : a = [] := List.length_eq_zero.mp h
    subst ha
    simp
  | cons c0 A ih =>
    cases a with
    | nil => simp at h
    | cons v a =>
      have h' : a.length = A.length := by simpa using h
      by_cases hc0 : c0 = c
      · subst hc0
        simp [cellOf]
      · have : (c ∈ c0 :: A) ↔ (c ∈ A) := by
          constructor
          · intro hm
            rcases List.mem_cons.mp hm with rfl | hm
            · exact absurd rfl hc0
            · exact hm
          · exact fun hm => List.mem_cons_of_mem _ hm
        by_cases hA : c ∈ A
        · rw [if_pos (this.mpr hA)]
          show cellOf (c0 :: (A ++ B)) (v :: (a ++ b)) c = cellOf (c0 :: A) (v :: a) c
          simp only [cellOf, if_neg hc0]
          rw [ih a h', if_pos hA]
        · rw [if_neg (fun hm => hA (this.mp hm))]
          show cellOf (c0 :: (A ++ B)) (v :: (a ++ b)) c = cellOf B b c
          simp only [cellOf, if_neg hc0]
          rw [ih a h', if_neg hA]

theorem cellOf_not_mem (A : List String) (a : List Val) (c : String) (h : c ∉ A) :
    cellOf A a c = none := by
  induction A generalizing a with
  | nil => exact cellOf_nil_cols a c
  | cons c0 A ih =>
    cases a with
    | nil => exact cellOf_nil_row _ c
    | cons v a =>
      have hc0 : c0 ≠ c := fun e => h (e ▸ List.mem_cons_self c0 A)
      simp only [cellOf, if_neg hc0]
      exact ih a (fun hm => h (List.mem_cons_of_mem _ hm))

theorem cellOf_map_self (cs : List String) (g : String → Val) (c : String) (h : c ∈ cs) :
    cellOf cs (cs.map g) c = g c := by
  induction cs with
  | nil => cases h
  | cons c0 cs ih =>
    by_cases hc0 : c0 = c
    · subst hc0
      simp [cellOf]
    · simp only [List.map_cons, cellOf, if_neg hc0]
      exact ih (by rcases List.mem_cons.mp h with rfl | hm; exact absurd rfl hc0; exact hm)

theorem cellOf_replicate (A : List String) (n : Nat) (c : String) :
    cellOf A (List.replicate n none) c = none := by
  induction A generalizing n with
  | nil => exact cellOf_nil_cols _ c
  | cons c0 A ih =>
    cases n with
    | zero => exact cellOf_nil_row _ c
    | succ n =>
      simp only [List.replicate_succ, cellOf]
      split
      · rfl
      · exact ih n

/-! ## Lemmas about the left-join row block -/

theorem joinBlock_eq_of_nodup (rcols : List String) (rrows : List (List Val)) (rk : String)
    (pad : Nat) (proj : List Val → List Val) (lrow : List Val) (key : Val)
    (h : (rrows.map (fun r => cellOf rcols r rk)).Nodup) :
    (if (rrows.filter (fun rrow => decide (cellOf rcols rrow rk = key))).isEmpty
     then [lrow ++ List.replicate pad (none : Val)]
     else (rrows.filter (fun rrow => decide (cellOf rcols rrow rk = key))).map
       (fun rrow => lrow ++ proj rrow)) =
    [lrow ++ rightExt rcols rrows rk pad proj key] := by
  induction rrows with
  | nil => simp [rightExt]
  | cons r t ih =>
    simp only [List.map_cons, List.nodup_cons] at h
    by_cases hr : cellOf rcols r rk = key
    · have hfilter_t : t.filter (fun rrow => decide (cellOf rcols rrow rk = key)) = [] := by
        apply List.filter_eq_nil_iff.mpr
        intro x hx
        simp only [decide_eq_true_eq]
        intro hx'
        exact h.1 ((hr.trans hx'.symm) ▸ List.mem_map_of_mem _ hx)
      have hd : (decide (cellOf rcols r rk = key)) = true := decide_eq_true hr
      simp only [List.filter_cons, hd, if_true, hfilter_t]
      simp [rightExt, List.find?_cons, hd]
    · have hd : (decide (cellOf rcols r rk = key)) = false := decide_eq_false hr
      simp only [List.filter_cons, hd, Bool.false_eq_true, if_false]
      rw [ih h.2]
      simp [rightExt, List.find?_cons, hd]

theorem joinRows_eq_map_of_nodup (lcols : List String) (lrows : List (List Val))
    (rcols : List String) (rrows : List (List Val)) (lk rk : String) (pad : Nat)
    (proj : List Val → List Val)
    (h : (rrows.map (fun r => cellOf rcols r rk)).Nodup) :
    joinRows lcols lrows rcols rrows lk rk pad proj =
      lrows.map (fun lrow =>
        lrow ++ rightExt rcols rrows rk pad proj (cellOf lcols lrow lk)) := by
  induction lrows with
  | nil => rfl
  | cons lrow rest ih =>
    simp only [joinRows]
    rw [joinBlock_eq_of_nodup rcols rrows rk pad proj lrow _ h, ih]
    rfl

theorem mem_joinRows (lcols : List String) (lrows : List (List Val)) (rcols : List String)
    (rrows : List (List Val)) (lk rk : String) (pad : Nat) (proj : List Val → List Val)
    (row : List Val) (h : row ∈ joinRows lcols lrows rcols rrows lk rk pad proj) :
    ∃ lrow ∈ lrows,
      (row = lrow ++ List.replicate pad (none : Val) ∧
        ∀ rrow ∈ rrows, cellOf rcols rrow rk ≠ cellOf lcols lrow lk) ∨
      (∃ rrow ∈ rrows, cellOf rcols rrow rk = cellOf lcols lrow lk ∧
        row = lrow ++ proj rrow) := by
  induction lrows with
  | nil => cases h
  | cons lrow rest ih =>
    simp only [joinRows] at h
    rcases List.mem_append.mp h with hb | hr
    · refine ⟨lrow, List.mem_cons_self _ _, ?_⟩
      by_cases he :
          (rrows.filter (fun rrow =>
            decide (cellOf rcols rrow rk = cellOf lcols lrow lk))).isEmpty = true
      · rw [if_pos he] at hb
        left
        refine ⟨List.mem_singleton.mp hb, ?_⟩
        intro rrow hrrow
        have := List.filter_eq_nil_iff.mp (List.isEmpty_iff.mp he) rrow hrrow
        simpa using this
      · rw [if_neg he] at hb
        right
        rcases List.mem_map.mp hb with ⟨rrow, hrrow, hrow⟩
        rcases List.mem_filter.mp hrrow with ⟨hmem, hkey⟩
        exact ⟨rrow, hmem, by simpa using hkey, hrow.symm⟩
    · rcases ih hr with ⟨lrow', hmem, hcase⟩
      exact ⟨lrow', List.mem_cons_of_mem _ hmem, hcase⟩

/-! ## Lemmas about `Frame.merge` -/

theorem merge_cols_collapse (l r : Frame) (rk : String)
    (hl : ∀ c ∈ l.cols, c = rk ∨ c ∉ r.cols)
    (hr : ∀ c ∈ r.cols, c = rk ∨ c ∉ l.cols) :
    (Frame.merge l r rk rk).cols = l.cols ++ r.cols.erase rk := by
  unfold Frame.merge
  rw [if_pos rfl]
  show (l.cols.map fun c => if c ≠ rk ∧ c ∈ r.cols then c ++ "_x" else c)
      ++ ((r.cols.erase rk).map fun c => if c ≠ rk ∧ c ∈ l.cols then c ++ "_y" else c)
      = l.cols ++ r.cols.erase rk
  congr 1
  · calc l.cols.map (fun c => if c ≠ rk ∧ c ∈ r.cols then c ++ "_x" else c)
        = l.cols.map id := by
          apply List.map_congr_left
          intro c hc
          rcases hl c hc with rfl | hnr
          · exact if_neg (fun hcon => hcon.1 rfl)
          · exact if_neg (fun hcon => hnr hcon.2)
      _ = l.cols := List.map_id _
  · calc (r.cols.erase rk).map (fun c => if c ≠ rk ∧ c ∈ l.cols then c ++ "_y" else c)
        = (r.cols.erase rk).map id := by
          apply List.map_congr_left
          intro c hc
          rcases hr c (List.mem_of_mem_erase hc) with rfl | hnl
          · exact if_neg (fun hcon => hcon.1 rfl)
          · exact if_neg (fun hcon => hnl hcon.2)
      _ = r.cols.erase rk := List.map_id _

theorem merge_cols_noncollapse (l r : Frame) (lk rk : String) (hne : lk ≠ rk)
    (hdisj : ∀ c ∈ l.cols, c ∉ r.cols) :
    (Frame.merge l r lk rk).cols = l.cols ++ r.cols := by
  unfold Frame.merge
  rw [if_neg hne]
  show (l.cols.map fun c => if c ∈ r.cols then c ++ "_x" else c)
      ++ (r.cols.map fun c => if c ∈ l.cols then c ++ "_y" else c) = l.cols ++ r.cols
  congr 1
  · calc l.cols.map (fun c => if c ∈ r.cols then c ++ "_x" else c)
        = l.cols.map id := List.map_congr_left fun c hc => if_neg (hdisj c hc)
      _ = l.cols := List.map_id _
  · calc r.cols.map (fun c => if c ∈ l.cols then c ++ "_y" else c)
        = r.cols.map id := by
          apply List.map_congr_left
          intro c hc
          exact if_neg (fun hcl => hdisj c hcl hc)
      _ = r.cols := List.map_id _

theorem merge_rows_collapse (l r : Frame) (rk : String) :
    (Frame.merge l r rk rk).rows =
      joinRows l.cols l.rows r.cols r.rows rk rk (r.cols.length - 1)
        (fun rrow => rrow.eraseIdx (r.cols.findIdx (fun c => decide (c = rk)))) := by
  unfold Frame.merge
  rw [if_pos rfl]

theorem merge_rows_noncollapse (l r : Frame) (lk rk : String) (hne : lk ≠ rk) :
    (Frame.merge l r lk rk).rows =
      joinRows l.cols l.rows r.cols r.rows lk rk r.cols.length (fun rrow => rrow) := by
  unfold Frame.merge
  rw [if_neg hne]

/-! ## Lemmas about `Frame.select` and the column reordering -/

theorem select_cols (f : Frame) (cs : List String) : (f.select cs).cols = cs := rfl

theorem select_rows (f : Frame) (cs : List String) :
    (f.select cs).rows = f.rows.map (fun row => cs.map (fun c => cellOf f.cols row c)) := rfl

theorem colVals_select (f : Frame) (cs : List String) (c : String) (h : c ∈ cs) :
    colVals (f.select cs) c = colVals f c := by
  unfold colVals Frame.select
  simp only [List.map_map]
  apply List.map_congr_left
  intro row _
  exact cellOf_map_self cs _ c h

theorem mem_reorderList (merged : Frame) (ch c : String) (h : c ∈ merged.cols) :
    c ∈ reorderList merged ch := by
  unfold reorderList
  by_cases hp : c ∈ preferredCols ch
  · exact List.mem_append_left _ (List.mem_filter.mpr ⟨hp, decide_eq_true h⟩)
  · exact List.mem_append_right _ (List.mem_filter.mpr ⟨h, decide_eq_true hp⟩)

theorem colVals_reorder (merged : Frame) (ch c : String) (h : c ∈ merged.cols) :
    colVals (reorderCols merged ch) c = colVals merged c :=
  colVals_select merged _ c (mem_reorderList merged ch c h)

theorem reorder_rows (merged : Frame) (ch : String) :
    (reorderCols merged ch).rows =
      merged.rows.map (fun row =>
        (reorderList merged ch).map (fun c => cellOf merged.cols row c)) := rfl

theorem mem_reorder_cols (merged : Frame) (ch c : String) (h : c ∈ merged.cols) :
    c ∈ (reorderCols merged ch).cols :=
  mem_reorderList merged ch c h

/-! ## Lemmas about the metrics preparation -/

theorem addMissing_foldl_spec (fs : List String) (f : Frame) (hnd : fs.Nodup) :
    (fs.foldl (fun acc c => if c ∈ acc.cols then acc else acc.addNullCol c) f) =
      ⟨f.cols ++ fs.filter (fun c => decide (c ∉ f.cols)),
       f.rows.map (fun r =>
         r ++ List.replicate (fs.filter (fun c => decide (c ∉ f.cols))).length none)⟩ := by
  induction fs generalizing f with
  | nil =>
    simp only [List.foldl_nil, List.filter_nil, List.append_nil, List.length_nil,
      List.replicate_zero]
    cases f with
    | mk cols rows => simp
  | cons c t ih =>
    rcases List.nodup_cons.mp hnd with ⟨hct, hndt⟩
    by_cases hc : c ∈ f.cols
    · rw [List.foldl_cons, if_pos hc, ih f hndt]
      simp [List.filter_cons, hc]
    · rw [List.foldl_cons, if_neg hc, ih (f.addNullCol c) hndt]
      have hfc : t.filter (fun d => decide (d ∉ (f.addNullCol c).cols)) =
          t.filter (fun d => decide (d ∉ f.cols)) := by
        apply List.filter_congr
        intro d hd
        have hdc : d ≠ c := fun e => hct (e ▸ hd)
        simp [Frame.addNullCol, hdc]
      have hdecc : (decide (c ∉ f.cols)) = true := by simpa using hc
      simp only [Frame.addNullCol] at hfc
      simp only [Frame.addNullCol, hfc, List.filter_cons, hdecc, if_true, Frame.mk.injEq]
      constructor
      · simp
      · simp only [List.map_map]
        apply List.map_congr_left
        intro r _
        simp [Function.comp, List.replicate_succ, List.append_assoc]

theorem addMissingMetricCols_spec (f : Frame) :
    addMissingMetricCols f =
      ⟨f.cols ++ metricFields.filter (fun c => decide (c ∉ f.cols)),
       f.rows.map (fun r =>
         r ++ List.replicate (metricFields.filter (fun c => decide (c ∉ f.cols))).length
           none)⟩ :=
  addMissing_foldl_spec metricFields f (by decide)

theorem mem_addMissing_cols (f : Frame) (c : String) (h : c ∈ metricFields ∨ c ∈ f.cols) :
    c ∈ (addMissingMetricCols f).cols := by
  rw [addMissingMetricCols_spec]
  rcases h with h | h
  · by_cases hc : c ∈ f.cols
    · exact List.mem_append_left _ hc
    · exact List.mem_append_right _ (List.mem_filter.mpr ⟨h, decide_eq_true hc⟩)
  · exact List.mem_append_left _ h

theorem addMissing_WF (f : Frame) (h : f.WF) : (addMissingMetricCols f).WF := by
  rw [addMissingMetricCols_spec]
  intro r hr
  rcases List.mem_map.mp hr with ⟨r0, hr0, rfl⟩
  simp [h r0 hr0]

theorem colVals_addMissing (f : Frame) (hwf : f.WF) (c : String) (hc : c ∈ f.cols) :
    colVals (addMissingMetricCols f) c = colVals f c := by
  rw [addMissingMetricCols_spec]
  unfold colVals
  simp only [List.map_map]
  apply List.map_congr_left
  intro r hr
  show cellOf (f.cols ++ _) (r ++ _) c = cellOf f.cols r c
  rw [cellOf_append _ _ _ _ _ (hwf r hr), if_pos hc]

theorem cell_addMissing_added (f : Frame) (hwf : f.WF) (c : String) (hnc : c ∉ f.cols) :
    ∀ r ∈ (addMissingMetricCols f).rows, cellOf (addMissingMetricCols f).cols r c = none := by
  rw [addMissingMetricCols_spec]
  intro r hr
  rcases List.mem_map.mp hr with ⟨r0, hr0, rfl⟩
  show cellOf (f.cols ++ _) (r0 ++ _) c = none
  rw [cellOf_append _ _ _ _ _ (hwf r0 hr0), if_neg hnc]
  exact cellOf_replicate _ _ c

theorem prepMetrics_ok_elim (metrics : Frame) (cm : List (String × String)) (f2 : Frame)
    (h : prepMetrics metrics cm = .ok f2) :
    "channel_id" ∈ (renamedMetrics metrics cm).cols ∧
      f2 = addMissingMetricCols (renamedMetrics metrics cm) := by
  unfold prepMetrics at h
  by_cases hc : "channel_id" ∈ (renamedMetrics metrics cm).cols
  · rw [if_neg (fun hn => hn hc)] at h
    exact ⟨hc, (Except.ok.injEq _ _ ▸ h).symm⟩
  · rw [if_pos hc] at h
    cases h

theorem renamedMetrics_WF (m : Frame) (cm : List (String × String)) (h : m.WF) :
    (renamedMetrics m cm).WF := by
  unfold renamedMetrics
  split
  · exact h
  · intro r hr
    simp only [Frame.rename, List.length_map]
    exact h r hr

theorem renamedMetrics_rows (m : Frame) (cm : List (String × String)) :
    (renamedMetrics m cm).rows = m.rows := by
  unfold renamedMetrics
  split
  · rfl
  · rfl

/-! ## Lemmas about channel resolution and `merge_data` decomposition -/

theorem resolveOpps_direct (opps : Frame) (md : Option Frame) (c : String)
    (h : _find_channel_column opps = some c) :
    resolveOpps opps md = .ok (opps, c, false) := by
  unfold resolveOpps
  rw [h]

theorem resolveOpps_ok_elim (opps : Frame) (md : Option Frame) (o2 : Frame) (ch : String)
    (u : Bool) (h : resolveOpps opps md = .ok (o2, ch, u)) :
    (u = false ∧ o2 = opps ∧ _find_channel_column opps = some ch) ∨
    (u = true ∧ ch = "channel_id" ∧ _find_channel_column opps = none ∧
      ∃ m acct, md = some m ∧ "account_name" ∈ m.cols ∧ "channel_id" ∈ m.cols ∧
        _select_account_column opps = some acct ∧
        o2 = Frame.merge opps (m.select ["account_name", "channel_id"]) acct "account_name") := by
  unfold resolveOpps at h
  cases hf : _find_channel_column opps with
  | some c =>
    rw [hf] at h
    cases h
    exact Or.inl ⟨rfl, rfl, rfl⟩
  | none =>
    rw [hf] at h
    cases md with
    | none => cases h
    | some m =>
      simp only [Frame.copy] at h
      by_cases hcols : "account_name" ∉ m.cols ∨ "channel_id" ∉ m.cols
      · rw [if_pos hcols] at h
        cases h
      · rw [if_neg hcols] at h
        push_neg at hcols
        cases ha : _select_account_column opps with
        | none =>
          rw [ha] at h
          cases h
        | some acct =>
          rw [ha] at h
          cases h
          exact Or.inr ⟨rfl, rfl, rfl, m, acct, rfl, hcols.1, hcols.2, rfl, rfl⟩

theorem merge_data_ok_elim (o m : Frame) (md : Option Frame) (cm : List (String × String))
    (res : MergeResult) (h : merge_data o m md cm = .ok res) :
    ∃ o2 ch u m2, resolveOpps o md = .ok (o2, ch, u) ∧ prepMetrics m cm = .ok m2 ∧
      res = ⟨reorderCols (Frame.merge o2 (m2.select joinedMetricCols) ch "channel_id") ch,
             ch, u⟩ := by
  unfold merge_data at h
  simp only [Frame.copy] at h
  cases hr : resolveOpps o md with
  | error e =>
    rw [hr] at h
    cases h
  | ok t =>
    rw [hr] at h
    obtain ⟨o2, ch, u⟩ := t
    cases hp : prepMetrics m cm with
    | error e =>
      rw [hp] at h
      cases h
    | ok m2 =>
      rw [hp] at h
      cases h
      exact ⟨o2, ch, u, m2, rfl, rfl, rfl⟩

/-! ## Claim theorems -/

/-- Claim C4: the channel-column resolver returns the first matching name from
the fixed priority list `Account.YouTube_Channel_ID__c`,
`YouTube_Channel_ID__c`, `channel_id`, `Channel_ID__c`; in particular, when
both `Account.YouTube_Channel_ID__c` and `channel_id` are present the former
is chosen, and when no candidate is present the resolver returns the
not-found sentinel `none` rather than raising. -/
theorem c4_channel_column_priority (opps : Frame) :
    ("Account.YouTube_Channel_ID__c" ∈ opps.cols →
      _find_channel_column opps = some "Account.YouTube_Channel_ID__c")
    ∧ (_find_channel_column opps = none ↔ ∀ c ∈ channelCandidates, c ∉ opps.cols)
    ∧ ("Account.YouTube_Channel_ID__c" ∉ opps.cols → "YouTube_Channel_ID__c" ∈ opps.cols →
      _find_channel_column opps = some "YouTube_Channel_ID__c")
    ∧ ("Account.YouTube_Channel_ID__c" ∉ opps.cols → "YouTube_Channel_ID__c" ∉ opps.cols →
      "channel_id" ∈ opps.cols → _find_channel_column opps = some "channel_id")
    ∧ ("Account.YouTube_Channel_ID__c" ∉ opps.cols → "YouTube_Channel_ID__c" ∉ opps.cols →
      "channel_id" ∉ opps.cols → "Channel_ID__c" ∈ opps.cols →
      _find_channel_column opps = some "Channel_ID__c") := by
  unfold _find_channel_column channelCandidates
  by_cases h1 : "Account.YouTube_Channel_ID__c" ∈ opps.cols <;>
    by_cases h2 : "YouTube_Channel_ID__c" ∈ opps.cols <;>
      by_cases h3 : "channel_id" ∈ opps.cols <;>
        by_cases h4 : "Channel_ID__c" ∈ opps.cols <;>
          simp [List.find?_cons, h1, h2, h3, h4]

/-- Witness for C4 at a concrete table containing both
`Account.YouTube_Channel_ID__c` and `channel_id`. -/
theorem c4_channel_column_priority_witness :
    _find_channel_column ⟨["channel_id", "Account.YouTube_Channel_ID__c"], []⟩ =
      some "Account.YouTube_Channel_ID__c" :=
  (c4_channel_column_priority ⟨["channel_id", "Account.YouTube_Channel_ID__c"], []⟩).1
    (by decide)

/-- Claim C6 (amended): the header-rename mapping is applied to the metrics
table before the `channel_id` requirement is checked, so a mapping pair that
renames an existing source header to `channel_id` satisfies the requirement;
and applying the same rename mapping twice yields the same final column set
as applying it once, provided no rename target is itself a rename source
mapped to a different name.  (The proviso is forced by the counterexample:
pandas `rename` is simultaneous, so a chained mapping moves a column
further on the second application.) -/
theorem c6_rename_before_check (metrics : Frame) (cm : List (String × String)) :
    (∀ s ∈ metrics.cols, List.lookup s (invertColmap cm) = some "channel_id" →
      ∃ f, prepMetrics metrics cm = .ok f)
    ∧ ((∀ p ∈ invertColmap cm,
          List.lookup p.2 (invertColmap cm) = none ∨
          List.lookup p.2 (invertColmap cm) = some p.2) →
        (renamedMetrics (renamedMetrics metrics cm) cm).cols =
          (renamedMetrics metrics cm).cols) := by
  constructor
  · intro s hs hlook
    have hcm : cm ≠ [] := by
      intro h
      rw [h] at hlook
      simp [invertColmap] at hlook
    have hne : cm.isEmpty = false := by
      cases cm
      · exact absurd rfl hcm
      · rfl
    have hmem : "channel_id" ∈ (renamedMetrics metrics cm).cols := by
      have hm := List.mem_map_of_mem (fun c => (List.lookup c (invertColmap cm)).getD c) hs
      simp only [hlook, Option.getD_some] at hm
      simp only [renamedMetrics, hne, Bool.false_eq_true, if_false]
      exact hm
    refine ⟨addMissingMetricCols (renamedMetrics metrics cm), ?_⟩
    simp only [prepMetrics]
    rw [if_neg (fun hn => hn hmem)]
  · intro hid
    unfold renamedMetrics
    cases hne : cm.isEmpty
    · simp only [Bool.false_eq_true, if_false]
      simp only [Frame.rename, List.map_map]
      apply List.map_congr_left
      intro n _
      simp only [Function.comp]
      cases h : List.lookup n (invertColmap cm) with
      | none => simp [h]
      | some e =>
        simp only [h, Option.getD_some]
        have hpe : (n, e) ∈ invertColmap cm := by
          rcases List.lookup_eq_some_iff.mp h with ⟨l₁, l₂, heq, _⟩
          rw [heq]
          exact List.mem_append_right _ (List.mem_cons_self _ _)
        rcases hid (n, e) hpe with h2 | h2 <;> simp [h2]
    · simp

/-- Counterexample for claim C6 as stated: with the rename mapping
`channel_id:Channel ID, x:channel_id` applied to a metrics table whose only
header is `Channel ID`, one application yields the column set
`[channel_id]` (joinable on `channel_id`) but a second application yields
`[x]`, so applying the mapping twice does not yield the same final column
set as applying it once. -/
theorem c6_counterexample :
    (renamedMetrics (⟨["Channel ID"], []⟩ : Frame)
        [("channel_id", "Channel ID"), ("x", "channel_id")]).cols = ["channel_id"] ∧
    (renamedMetrics (renamedMetrics (⟨["Channel ID"], []⟩ : Frame)
        [("channel_id", "Channel ID"), ("x", "channel_id")])
        [("channel_id", "Channel ID"), ("x", "channel_id")]).cols = ["x"] := by
  decide

/-- Witness for C6 at the spec's own example `channel_id:Channel ID` on a
metrics table with header `Channel ID`. -/
theorem c6_rename_before_check_witness :
    (prepMetrics ⟨["Channel ID"], []⟩ [("channel_id", "Channel ID")]).isOk = true ∧
    (renamedMetrics (renamedMetrics ⟨["Channel ID"], []⟩ [("channel_id", "Channel ID")])
        [("channel_id", "Channel ID")]).cols =
      (renamedMetrics ⟨["Channel ID"], []⟩ [("channel_id", "Channel ID")]).cols := by
  constructor
  · obtain ⟨f, hf⟩ :=
      (c6_rename_before_check ⟨["Channel ID"], []⟩ [("channel_id", "Channel ID")]).1
        "Channel ID" (by decide) (by decide)
    rw [hf]
    rfl
  · exact (c6_rename_before_check ⟨["Channel ID"], []⟩ [("channel_id", "Channel ID")]).2
      (by decide)

/-! ## Lemmas about `parse_colmap` -/

theorem dictInsert_shape (P : String × String → Prop) (m : List (String × String))
    (k v : String) (hm : ∀ kv ∈ m, P kv) (hkv : P (k, v)) :
    ∀ kv ∈ dictInsert m k v, P kv := by
  unfold dictInsert
  split
  · intro kv hkv'
    rcases List.mem_map.mp hkv' with ⟨p, hp, rfl⟩
    split
    · exact hkv
    · exact hm p hp
  · intro kv hkv'
    rcases List.mem_append.mp hkv' with h | h
    · exact hm kv h
    · rw [List.mem_singleton.mp h]
      exact hkv

theorem except_bind_ok {ε α β : Type} (a : α) (f : α → Except ε β) :
    (Except.ok a : Except ε α) >>= f = f a := rfl

theorem except_bind_error {ε α β : Type} (e : ε) (f : α → Except ε β) :
    (Except.error e : Except ε α) >>= f = (Except.error e : Except ε β) := rfl

theorem parse_fold_ok_iff (P : List String) (acc : List (String × String)) :
    (P.foldlM (fun (m : List (String × String)) (pair : String) =>
        if pair.contains ':' then
          let parts := pair.splitOn ":"
          Except.ok (dictInsert m (parts.headD "").trim
            (String.intercalate ":" parts.tail).trim)
        else
          Except.error ("Bad metrics column pair: " ++ pair ++ ". Use new_name:existing_header"))
      acc).isOk = true ↔ ∀ p ∈ P, p.contains ':' = true := by
  induction P generalizing acc with
  | nil => simp [List.foldlM, Except.isOk, Except.toBool, pure, Except.pure]
  | cons p t ih =>
    simp only [List.foldlM_cons]
    by_cases hp : p.contains ':'
    · rw [if_pos hp, except_bind_ok, ih]
      simp [hp]
    · rw [if_neg hp, except_bind_error]
      simp only [Except.isOk, Except.toBool, Bool.false_eq_true, false_iff]
      intro hall
      exact hp (hall p (List.mem_cons_self _ _))

theorem parse_fold_error (P : List String) (acc : List (String × String)) (msg : String)
    (h : P.foldlM (fun (m : List (String × String)) (pair : String) =>
        if pair.contains ':' then
          let parts := pair.splitOn ":"
          Except.ok (dictInsert m (parts.headD "").trim
            (String.intercalate ":" parts.tail).trim)
        else
          Except.error ("Bad metrics column pair: " ++ pair ++ ". Use new_name:existing_header"))
      acc = .error msg) :
    ∃ p ∈ P, p.contains ':' = false ∧
      msg = "Bad metrics column pair: " ++ p ++ ". Use new_name:existing_header" := by
  induction P generalizing acc with
  | nil =>
    simp only [List.foldlM] at h
    cases h
  | cons p t ih =>
    simp only [List.foldlM_cons] at h
    by_cases hp : p.contains ':'
    · rw [if_pos hp] at h
      rcases ih _ h with ⟨q, hq, hqc, hqm⟩
      exact ⟨q, List.mem_cons_of_mem _ hq, hqc, hqm⟩
    · rw [if_neg hp] at h
      refine ⟨p, List.mem_cons_self _ _, by simpa using hp, ?_⟩
      cases h
      rfl

theorem parse_fold_shape (P : List String) (acc : List (String × String))
    (l : List (String × String))
    (hacc : ∀ kv ∈ acc, (∃ s : String, kv.1 = s.trim) ∧ ∃ t : String, kv.2 = t.trim)
    (h : P.foldlM (fun (m : List (String × String)) (pair : String) =>
        if pair.contains ':' then
          let parts := pair.splitOn ":"
          Except.ok (dictInsert m (parts.headD "").trim
            (String.intercalate ":" parts.tail).trim)
        else
          Except.error ("Bad metrics column pair: " ++ pair ++ ". Use new_name:existing_header"))
      acc = .ok l) :
    ∀ kv ∈ l, (∃ s : String, kv.1 = s.trim) ∧ ∃ t : String, kv.2 = t.trim := by
  induction P generalizing acc with
  | nil =>
    simp only [List.foldlM] at h
    cases h
    exact hacc
  | cons p t ih =>
    simp only [List.foldlM_cons] at h
    by_cases hp : p.contains ':'
    · rw [if_pos hp] at h
      refine ih _ ?_ h
      exact dictInsert_shape _ _ _ _ hacc ⟨⟨_, rfl⟩, ⟨_, rfl⟩⟩
    · rw [if_neg hp] at h
      cases h

theorem splitOn_empty_comma : ("" : String).splitOn "," = [""] := by
  simp [String.splitOn, String.splitOnAux, String.atEnd, String.extract, String.endPos,
    String.utf8ByteSize]

theorem trim_empty : ("" : String).trim = "" := by
  simp [String.trim, Substring.trim, Substring.trimLeft, Substring.trimRight,
    String.toSubstring, Substring.dropWhile, Substring.takeWhileAux,
    Substring.takeRightWhileAux, Substring.toString, String.extract, String.endPos,
    String.utf8ByteSize]

/-- Claim C8: `parse_colmap` returns an empty mapping for an empty (or null)
input string, and errors if and only if some comma-separated fragment of the
input is non-blank and has no `:` separator; the error message carries the
offending fragment (as iterated over by the code, i.e. whitespace-trimmed),
and both sides of each pair in a successful result are whitespace-trimmed. -/
theorem c8_parse_colmap_spec (arg : String) :
    (arg = "" → parse_colmap arg = .ok [])
    ∧ ((∃ m, parse_colmap arg = .error m) ↔
        ∃ p ∈ arg.splitOn ",", p.trim ≠ "" ∧ p.trim.contains ':' = false)
    ∧ (∀ m, parse_colmap arg = .error m →
        ∃ p ∈ arg.splitOn ",", p.trim ≠ "" ∧ p.trim.contains ':' = false ∧
          m = "Bad metrics column pair: " ++ p.trim ++ ". Use new_name:existing_header")
    ∧ (∀ l, parse_colmap arg = .ok l →
        ∀ kv ∈ l, (∃ s : String, kv.1 = s.trim) ∧ ∃ t : String, kv.2 = t.trim) := by
  by_cases harg : arg = ""
  · subst harg
    refine ⟨fun _ => rfl, ?_, ?_, ?_⟩
    · simp only [parse_colmap, if_pos rfl]
      constructor
      · rintro ⟨m, hm⟩
        cases hm
      · rintro ⟨p, hp, hne, _⟩
        rw [splitOn_empty_comma] at hp
        rw [List.mem_singleton.mp hp] at hne
        exact (hne trim_empty).elim
    · intro m hm
      simp only [parse_colmap, if_pos rfl] at hm
      cases hm
    · intro l hl
      simp only [parse_colmap, if_pos rfl] at hl
      cases hl
      intro kv hkv
      cases hkv
  · have hunfold : parse_colmap arg =
        (((arg.splitOn ",").map String.trim).filter (fun p => decide (p ≠ ""))).foldlM
          (fun (m : List (String × String)) (pair : String) =>
            if pair.contains ':' then
              let parts := pair.splitOn ":"
              Except.ok (dictInsert m (parts.headD "").trim
                (String.intercalate ":" parts.tail).trim)
            else
              Except.error
                ("Bad metrics column pair: " ++ pair ++ ". Use new_name:existing_header"))
          [] := by
      simp only [parse_colmap, if_neg harg]
    have hmemP : ∀ p, p ∈ ((arg.splitOn ",").map String.trim).filter
        (fun p => decide (p ≠ "")) ↔ ∃ q ∈ arg.splitOn ",", q.trim = p ∧ p ≠ "" := by
      intro p
      constructor
      · intro hp
        rcases List.mem_filter.mp hp with ⟨hmem, hne⟩
        rcases List.mem_map.mp hmem with ⟨q, hq, rfl⟩
        exact ⟨q, hq, rfl, by simpa using hne⟩
      · rintro ⟨q, hq, rfl, hne⟩
        exact List.mem_filter.mpr ⟨List.mem_map_of_mem _ hq, by simpa using hne⟩
    refine ⟨fun h => absurd h harg, ?_, ?_, ?_⟩
    · constructor
      · rintro ⟨m, hm⟩
        rw [hunfold] at hm
        rcases parse_fold_error _ _ _ hm with ⟨p, hp, hpc, _⟩
        rcases (hmemP p).mp hp with ⟨q, hq, hqt, hne⟩
        exact ⟨q, hq, hqt ▸ hne, hqt ▸ hpc⟩
      · rintro ⟨p, hp, hne, hpc⟩
        cases hres : parse_colmap arg with
        | error m => exact ⟨m, rfl⟩
        | ok l =>
          exfalso
          rw [hunfold] at hres
          have hok : (((arg.splitOn ",").map String.trim).filter
              (fun p => decide (p ≠ ""))).foldlM _ [] = Except.ok l := hres
          have := (parse_fold_ok_iff _ []).mp (by rw [hres]; rfl)
          have hmem : p.trim ∈ ((arg.splitOn ",").map String.trim).filter
              (fun p => decide (p ≠ "")) :=
            (hmemP p.trim).mpr ⟨p, hp, rfl, hne⟩
          rw [this p.trim hmem] at hpc
          cases hpc
    · intro m hm
      rw [hunfold] at hm
      rcases parse_fold_error _ _ _ hm with ⟨p, hp, hpc, hpm⟩
      rcases (hmemP p).mp hp with ⟨q, hq, hqt, hne⟩
      exact ⟨q, hq, hqt ▸ hne, hqt ▸ hpc, hqt ▸ hpm⟩
    · intro l hl
      rw [hunfold] at hl
      exact parse_fold_shape _ _ _ (fun kv hkv => by cases hkv) hl

/-- Witness for C8 at the empty string. -/
theorem c8_parse_colmap_spec_witness : parse_colmap "" = .ok [] :=
  (c8_parse_colmap_spec "").1 rfl

/-- Claim C9: invoking the CLI entry point with an empty argument list prints
the usage text and returns successfully (process exit code 0) instead of
raising an argument-parsing error. -/
theorem c9_empty_argv_usage :
    main [] = MainBehavior.usageThenExitZero ∧
    MainBehavior.exitCode (main []) = some 0 :=
  ⟨rfl, rfl⟩

/-- Claim C5 (amended): on every input where channel-column resolution
succeeds (directly or via the supplied map) and the metrics table, after
the rename mapping has been applied, lacks a `channel_id` column,
`merge_data` returns the schema error citing `channel_id` and produces no
output table.  (The resolution proviso is forced by the counterexample: an
input can fail channel resolution first, with an error that does not cite
`channel_id`, even though its metrics table also lacks `channel_id`.) -/
theorem c5_missing_channel_id_error (opps metrics : Frame) (md : Option Frame)
    (cm : List (String × String)) (t : Frame × String × Bool)
    (hres : resolveOpps opps md = .ok t)
    (hmiss : "channel_id" ∉ (renamedMetrics metrics cm).cols) :
    merge_data opps metrics md cm =
      .error "Metrics CSV must include \x27channel_id\x27 (or map it via --metrics-cols)." ∧
    citesChannelId
      "Metrics CSV must include \x27channel_id\x27 (or map it via --metrics-cols)." = true := by
  have hprep : prepMetrics metrics cm =
      .error "Metrics CSV must include \x27channel_id\x27 (or map it via --metrics-cols)." := by
    simp only [prepMetrics]
    rw [if_pos hmiss]
  constructor
  · unfold merge_data
    simp only [Frame.copy]
    rw [hres]
    obtain ⟨o2, ch, u⟩ := t
    show (prepMetrics metrics cm >>= _) = _
    rw [hprep, except_bind_error]
  · decide

/-- Counterexample for claim C5 as stated: the opportunity table has no
channel column, the map lacks a usable account column in the opportunities,
and the metrics table lacks `channel_id`; `merge_data` raises the
account-column error, whose message does not cite `channel_id`, even though
the renamed metrics table lacks `channel_id`. -/
theorem c5_counterexample :
    merge_data ⟨["x"], []⟩ ⟨["y"], []⟩ (some ⟨["account_name", "channel_id"], []⟩) [] =
      .error "Couldn\x27t find Account.Name column in opps to join with channel_map." ∧
    "channel_id" ∉ (renamedMetrics ⟨["y"], []⟩ []).cols ∧
    citesChannelId "Couldn\x27t find Account.Name column in opps to join with channel_map."
      = false := by
  refine ⟨rfl, by decide, by decide⟩

/-- Witness for C5: a concrete input that resolves its channel column but
has a metrics table without `channel_id`. -/
theorem c5_missing_channel_id_error_witness :
    merge_data wOpps ⟨["y"], []⟩ none [] =
      .error "Metrics CSV must include \x27channel_id\x27 (or map it via --metrics-cols)." :=
  (c5_missing_channel_id_error wOpps ⟨["y"], []⟩ none [] (wOpps, "channel_id", false)
    rfl (by decide)).1

/-! ## Membership lemmas for merge columns (claim C10) -/

theorem mem_merge_cols_left (l r : Frame) (lk rk c : String) (hc : c ∈ l.cols)
    (hcr : c ∉ r.cols) : c ∈ (Frame.merge l r lk rk).cols := by
  unfold Frame.merge
  split
  · exact List.mem_append_left _
      (List.mem_map.mpr ⟨c, hc, if_neg (fun h => hcr h.2)⟩)
  · exact List.mem_append_left _
      (List.mem_map.mpr ⟨c, hc, if_neg hcr⟩)

theorem mem_merge_cols_right_noncollapse (l r : Frame) (lk rk c : String) (hne : lk ≠ rk)
    (hc : c ∈ r.cols) (hcl : c ∉ l.cols) : c ∈ (Frame.merge l r lk rk).cols := by
  unfold Frame.merge
  rw [if_neg hne]
  exact List.mem_append_right _ (List.mem_map.mpr ⟨c, hc, if_neg hcl⟩)

/-- Claim C10 (amended): whenever the channel-map fallback path is taken and
the opportunity table itself has no `account_name` column, the merged output
contains the map's `account_name` column as an additional column.  (The
proviso is forced by the counterexample: when the opportunity table already
has an `account_name` column distinct from its resolved account column, the
join suffixes both copies to `account_name_x` / `account_name_y` and no
`account_name` column survives.) -/
theorem c10_account_name_column (opps metrics map_ : Frame)
    (cm : List (String × String)) (res : MergeResult)
    (hch : _find_channel_column opps = none)
    (han : "account_name" ∉ opps.cols)
    (hok : merge_data opps metrics (some map_) cm = .ok res) :
    res.map_used = true ∧ "account_name" ∈ res.frame.cols ∧
      "account_name" ∉ opps.cols := by
  obtain ⟨o2, ch, u, m2, hres, hprep, hres_eq⟩ := merge_data_ok_elim _ _ _ _ _ hok
  rcases resolveOpps_ok_elim _ _ _ _ _ hres with
    ⟨hu, ho2, hfind⟩ | ⟨hu, hcheq, hfind, mm, acct, hmd, hman, hmcid, hacct, ho2⟩
  · rw [hch] at hfind
    cases hfind
  · have hmm : mm = map_ := (Option.some.injEq _ _ ▸ hmd).symm
    have hacct_mem : acct ∈ opps.cols := by
      have := List.find?_some hacct
      simpa using this
    have hacct_ne : acct ≠ "account_name" := fun e => han (e ▸ hacct_mem)
    have hcid_opps : "channel_id" ∉ opps.cols := by
      intro hmem
      have := List.find?_eq_none.mp hch "channel_id" (by decide)
      simp at this
      exact this hmem
    have han_o2 : "account_name" ∈ o2.cols := by
      rw [ho2]
      exact mem_merge_cols_right_noncollapse _ _ _ _ _ hacct_ne
        (by rw [select_cols]; decide) han
    have han_merged : "account_name" ∈
        (Frame.merge o2 (m2.select joinedMetricCols) ch "channel_id").cols :=
      mem_merge_cols_left _ _ _ _ _ han_o2 (by rw [select_cols]; decide)
    refine ⟨?_, ?_, han⟩
    · rw [hres_eq, hu]
    · rw [hres_eq]
      exact mem_reorder_cols _ _ _ han_merged

/-- Counterexample for claim C10 as stated: the fallback path is taken
(`map_used = true`) but the opportunity table already carries its own
`account_name` column next to the resolved `Account.Name` column, so the
map join suffixes the two copies and the output has no `account_name`
column at all. -/
theorem c10_counterexample :
    (merge_data ⟨["Account.Name", "account_name"], [[some "Acme", some "X"]]⟩
        ⟨["channel_id"], [[some "UC1"]]⟩
        (some ⟨["account_name", "channel_id"], [[some "Acme", some "UC1"]]⟩) []).map
      (fun r => (r.map_used, decide ("account_name" ∈ r.frame.cols))) =
      .ok (true, false) := by
  rfl

/-- Witness for C10: the fallback path on an opportunity table without its
own `account_name` column. -/
theorem c10_account_name_column_witness :
    merge_data wOppsNoCh wMetrics (some wMap) [] = .ok wRes10 ∧
    wRes10.map_used = true ∧ "account_name" ∈ wRes10.frame.cols := by
  have h : merge_data wOppsNoCh wMetrics (some wMap) [] = .ok wRes10 := rfl
  have hc := c10_account_name_column wOppsNoCh wMetrics wMap [] wRes10 rfl (by decide) h
  exact ⟨h, hc.1, hc.2.1⟩

/-! ## Infrastructure for the row-preservation and schema claims -/

theorem rightExt_of_no_match (rcols : List String) (rrows : List (List Val)) (rk : String)
    (pad : Nat) (proj : List Val → List Val) (key : Val)
    (h : ∀ rr ∈ rrows, cellOf rcols rr rk ≠ key) :
    rightExt rcols rrows rk pad proj key = List.replicate pad none := by
  unfold rightExt
  rw [List.find?_eq_none.mpr]
  intro rr hrr
  simpa using h rr hrr

theorem rightExt_length (rcols : List String) (rrows : List (List Val)) (rk : String)
    (pad : Nat) (proj : List Val → List Val) (key : Val)
    (h : ∀ rr ∈ rrows, (proj rr).length = pad) :
    (rightExt rcols rrows rk pad proj key).length = pad := by
  unfold rightExt
  cases hf : rrows.find? (fun rrow => decide (cellOf rcols rrow rk = key)) with
  | none => exact List.length_replicate _ _
  | some rr => exact h rr (List.mem_of_find?_eq_some hf)

theorem joinRows_WF (lcols : List String) (lrows : List (List Val)) (rcols : List String)
    (rrows : List (List Val)) (lk rk : String) (pad : Nat) (proj : List Val → List Val)
    (hl : ∀ r ∈ lrows, r.length = lcols.length)
    (hp : ∀ rr ∈ rrows, (proj rr).length = pad) :
    ∀ row ∈ joinRows lcols lrows rcols rrows lk rk pad proj,
      row.length = lcols.length + pad := by
  intro row hrow
  rcases mem_joinRows _ _ _ _ _ _ _ _ _ hrow with ⟨lrow, hlrow, hcase⟩
  rcases hcase with ⟨rfl, _⟩ | ⟨rr, hrr, _, rfl⟩
  · simp [hl lrow hlrow]
  · simp [hl lrow hlrow, hp rr hrr]

theorem mem_six_cases (c : String) (h : c ∈ joinedMetricCols) :
    c = "channel_id" ∨ c ∈ metricFields := by
  simp only [joinedMetricCols, List.mem_cons, List.not_mem_nil, or_false] at h
  rcases h with rfl | rfl | rfl | rfl | rfl | rfl
  · exact Or.inl rfl
  · exact Or.inr (by decide)
  · exact Or.inr (by decide)
  · exact Or.inr (by decide)
  · exact Or.inr (by decide)
  · exact Or.inr (by decide)

theorem six_erase_cid :
    joinedMetricCols.erase "channel_id" =
      ["channel_name", "views_30d", "audience_size", "category", "growth_30d_pct"] := by
  decide

theorem mem_five_of_metricFields (c : String) (h : c ∈ metricFields) :
    c ∈ joinedMetricCols.erase "channel_id" := by
  rw [six_erase_cid]
  simp only [metricFields, List.mem_cons, List.not_mem_nil, or_false] at h
  rcases h with rfl | rfl | rfl | rfl | rfl <;> decide

theorem mem_six_of_metricFields (c : String) (h : c ∈ metricFields) :
    c ∈ joinedMetricCols := by
  simp only [metricFields, List.mem_cons, List.not_mem_nil, or_false] at h
  rcases h with rfl | rfl | rfl | rfl | rfl <;> decide

theorem six_findIdx_cid :
    joinedMetricCols.findIdx (fun c => decide (c = "channel_id")) = 0 := rfl

/-- Transport of `channel_id` column values through null-column synthesis
and the six-column selection. -/
theorem colVals_prep_cid (metrics : Frame) (cm : List (String × String)) (m2 : Frame)
    (hmwf : metrics.WF) (hprep : prepMetrics metrics cm = .ok m2) :
    colVals (m2.select joinedMetricCols) "channel_id" =
      colVals (renamedMetrics metrics cm) "channel_id" := by
  obtain ⟨hmem, rfl⟩ := prepMetrics_ok_elim _ _ _ hprep
  rw [colVals_select _ _ _ (by decide)]
  exact colVals_addMissing _ (renamedMetrics_WF _ _ hmwf) _ hmem

/-- Every row of the six-column join table carries the `channel_id` value of
a row of the renamed metrics table. -/
theorem prep_key_cell (metrics : Frame) (cm : List (String × String)) (m2 : Frame)
    (hmwf : metrics.WF) (hprep : prepMetrics metrics cm = .ok m2)
    (rr : List Val) (hrr : rr ∈ (m2.select joinedMetricCols).rows) :
    ∃ r0 ∈ (renamedMetrics metrics cm).rows,
      cellOf (m2.select joinedMetricCols).cols rr "channel_id" =
        cellOf (renamedMetrics metrics cm).cols r0 "channel_id" := by
  obtain ⟨hmem, rfl⟩ := prepMetrics_ok_elim _ _ _ hprep
  rw [select_rows] at hrr
  rcases List.mem_map.mp hrr with ⟨r, hr, rfl⟩
  rw [addMissingMetricCols_spec] at hr
  rcases List.mem_map.mp hr with ⟨r0, hr0, rfl⟩
  refine ⟨r0, hr0, ?_⟩
  rw [select_cols, cellOf_map_self _ _ _ (by decide)]
  show cellOf (addMissingMetricCols (renamedMetrics metrics cm)).cols _ _ = _
  rw [addMissingMetricCols_spec]
  show cellOf ((renamedMetrics metrics cm).cols ++ _) (r0 ++ _) _ = _
  rw [cellOf_append _ _ _ _ _ (renamedMetrics_WF _ _ hmwf r0 hr0), if_pos hmem]

/-- A metric field absent from the renamed metrics table is all-null in the
six-column join table. -/
theorem prep_added_null (metrics : Frame) (cm : List (String × String)) (m2 : Frame)
    (hmwf : metrics.WF) (hprep : prepMetrics metrics cm = .ok m2)
    (mf : String) (hmf : mf ∈ metricFields) (habs : mf ∉ (renamedMetrics metrics cm).cols) :
    ∀ rr ∈ (m2.select joinedMetricCols).rows,
      cellOf (m2.select joinedMetricCols).cols rr mf = none := by
  obtain ⟨hmem, rfl⟩ := prepMetrics_ok_elim _ _ _ hprep
  intro rr hrr
  rw [select_rows] at hrr
  rcases List.mem_map.mp hrr with ⟨r, hr, rfl⟩
  rw [select_cols, cellOf_map_self _ _ _ (mem_six_of_metricFields mf hmf)]
  exact cell_addMissing_added _ (renamedMetrics_WF _ _ hmwf) _ habs r hr

theorem cell_left_block (LC RC : List String) (lrow ext : List Val) (c : String)
    (hlen : lrow.length = LC.length) (hc : c ∈ LC) :
    cellOf (LC ++ RC) (lrow ++ ext) c = cellOf LC lrow c := by
  rw [cellOf_append _ _ _ _ _ hlen, if_pos hc]

theorem cell_right_block (LC RC : List String) (lrow ext : List Val) (c : String)
    (hlen : lrow.length = LC.length) (hc : c ∉ LC) :
    cellOf (LC ++ RC) (lrow ++ ext) c = cellOf RC ext c := by
  rw [cellOf_append _ _ _ _ _ hlen, if_neg hc]

theorem reorder_cell_of_mem (merged : Frame) (ch : String) (row : List Val)
    (hrow : row ∈ (reorderCols merged ch).rows) :
    ∃ mrow ∈ merged.rows,
      (∀ c ∈ merged.cols,
        cellOf (reorderCols merged ch).cols row c = cellOf merged.cols mrow c) := by
  rw [reorder_rows] at hrow
  rcases List.mem_map.mp hrow with ⟨mrow, hm, rfl⟩
  refine ⟨mrow, hm, ?_⟩
  intro c hc
  show cellOf (reorderList merged ch) _ c = _
  exact cellOf_map_self _ _ _ (mem_reorderList merged ch c hc)

theorem merged_cols_collapse_six (o2 R : Frame) (hR : R.cols = joinedMetricCols)
    (hnofive : ∀ c ∈ o2.cols, c ∉ metricFields) :
    (Frame.merge o2 R "channel_id" "channel_id").cols =
      o2.cols ++ ["channel_name", "views_30d", "audience_size", "category",
        "growth_30d_pct"] := by
  have h := merge_cols_collapse o2 R "channel_id" ?_ ?_
  · rw [hR, six_erase_cid] at h
    exact h
  · intro c hc
    by_cases hcc : c = "channel_id"
    · exact Or.inl hcc
    · refine Or.inr ?_
      rw [hR]
      intro hmem
      rcases mem_six_cases c hmem with rfl | hm5
      · exact hcc rfl
      · exact hnofive c hc hm5
  · intro c hc
    rw [hR] at hc
    rcases mem_six_cases c hc with rfl | hm5
    · exact Or.inl rfl
    · exact Or.inr (fun hmem => hnofive c hmem hm5)

theorem merged_rows_collapse_six (o2 R : Frame) (hR : R.cols = joinedMetricCols)
    (hnd : (colVals R "channel_id").Nodup) :
    (Frame.merge o2 R "channel_id" "channel_id").rows =
      o2.rows.map (fun lrow =>
        lrow ++ rightExt R.cols R.rows "channel_id" 5 (fun rrow => rrow.eraseIdx 0)
          (cellOf o2.cols lrow "channel_id")) := by
  rw [merge_rows_collapse]
  have h1 : R.cols.length - 1 = 5 := by rw [hR]; rfl
  have h2 : R.cols.findIdx (fun c => decide (c = "channel_id")) = 0 := by rw [hR]; rfl
  rw [h1, h2]
  exact joinRows_eq_map_of_nodup _ _ _ _ _ _ _ _ hnd

theorem merged_rows_noncollapse_six (o2 R : Frame) (ch : String) (hne : ch ≠ "channel_id")
    (hnd : (colVals R "channel_id").Nodup) :
    (Frame.merge o2 R ch "channel_id").rows =
      o2.rows.map (fun lrow =>
        lrow ++ rightExt R.cols R.rows "channel_id" R.cols.length (fun rrow => rrow)
          (cellOf o2.cols lrow ch)) := by
  rw [merge_rows_noncollapse _ _ _ _ hne]
  exact joinRows_eq_map_of_nodup _ _ _ _ _ _ _ _ hnd

theorem no_match_R (metrics : Frame) (cm : List (String × String)) (m2 : Frame)
    (hmwf : metrics.WF) (hprep : prepMetrics metrics cm = .ok m2) (key : Val)
    (h : ∀ rr ∈ (renamedMetrics metrics cm).rows,
      cellOf (renamedMetrics metrics cm).cols rr "channel_id" ≠ key) :
    ∀ rr ∈ (m2.select joinedMetricCols).rows,
      cellOf (m2.select joinedMetricCols).cols rr "channel_id" ≠ key := by
  intro rr hrr
  rcases prep_key_cell metrics cm m2 hmwf hprep rr hrr with ⟨r0, hr0, heq⟩
  rw [heq]
  exact h r0 hr0

/-! ## Suffix-tolerant lemmas about merged column lists

A pandas merge renames an overlapping non-key label `c` to `c ++ "_x"` on
the left and `c ++ "_y"` on the right.  The lemmas below characterize cell
lookups through such a renamed column list without assuming the overlap is
empty. -/

/-- A cell lookup is unchanged by a column renaming that neither moves the
looked-up label away nor introduces it at an earlier position. -/
theorem cellOf_map_cols (l : List String) (row : List Val) (f : String → String)
    (c : String) (h : ∀ d ∈ l, (f d = c ↔ d = c)) :
    cellOf (l.map f) row c = cellOf l row c := by
  induction l generalizing row with
  | nil => rfl
  | cons d l ih =>
    cases row with
    | nil => rw [cellOf_nil_row, cellOf_nil_row]
    | cons v vs =>
      have hd := h d (List.mem_cons_self d l)
      by_cases hdc : d = c
      · have hfd : f d = c := hd.mpr hdc
        simp only [List.map_cons, cellOf, if_pos hfd, if_pos hdc]
      · have hfd : f d ≠ c := fun e => hdc (hd.mp e)
        simp only [List.map_cons, cellOf, if_neg hfd, if_neg hdc]
        exact ih vs (fun e he => h e (List.mem_cons_of_mem _ he))

theorem not_mem_map_of_ne (l : List String) (f : String → String) (c : String)
    (h : ∀ d ∈ l, f d ≠ c) : c ∉ l.map f := by
  intro hmem
  rcases List.mem_map.mp hmem with ⟨d, hd, hfd⟩
  exact h d hd hfd

theorem mem_map_of_fix (l : List String) (f : String → String) (c : String)
    (hc : c ∈ l) (hfc : f c = c) : c ∈ l.map f := by
  rw [← hfc]
  exact List.mem_map_of_mem f hc

theorem cellOf_cons_ne (a : String) (T : List String) (v : Val) (vs : List Val)
    (c : String) (h : a ≠ c) : cellOf (a :: T) (v :: vs) c = cellOf T vs c := by
  simp only [cellOf, if_neg h]

/-- No metric field is one of the labels the two joins can synthesize. -/
theorem metricField_ne_suffixed (mf : String) (hmf : mf ∈ metricFields) :
    mf ≠ "channel_id" ∧ mf ≠ "channel_id_x" ∧ mf ≠ "channel_id_y" ∧
    mf ≠ "account_name" ∧ mf ≠ "account_name_x" ∧ mf ≠ "account_name_y" := by
  simp only [metricFields, List.mem_cons, List.not_mem_nil, or_false] at hmf
  rcases hmf with rfl | rfl | rfl | rfl | rfl <;> exact ⟨by decide, by decide, by decide,
    by decide, by decide, by decide⟩

theorem channelCandidate_ne_cidx (ch : String) (h : ch ∈ channelCandidates) :
    ch ≠ "channel_id_x" := by
  simp only [channelCandidates, List.mem_cons, List.not_mem_nil, or_false] at h
  rcases h with rfl | rfl | rfl | rfl <;> decide

theorem accountCandidate_ne_anx (a : String) (h : a ∈ accountCandidates) :
    a ≠ "account_name_x" := by
  simp only [accountCandidates, List.mem_cons, List.not_mem_nil, or_false] at h
  rcases h with rfl | rfl | rfl <;> decide

/-- Columns of the non-collapsed main metrics join: the left block keeps
every label except a colliding `channel_id`, which pandas suffixes to
`channel_id_x`; the right block carries the metrics key as `channel_id` or
`channel_id_y` followed by the five metric names. -/
theorem merged_cols_noncollapse_gen (o2 R : Frame) (ch : String)
    (hR : R.cols = joinedMetricCols) (hne : ch ≠ "channel_id")
    (hnofive : ∀ c ∈ o2.cols, c ∉ metricFields) :
    (Frame.merge o2 R ch "channel_id").cols =
      o2.cols.map (fun d => if d = "channel_id" then "channel_id_x" else d)
      ++ ((if "channel_id" ∈ o2.cols then "channel_id_y" else "channel_id") ::
          ["channel_name", "views_30d", "audience_size", "category",
            "growth_30d_pct"]) := by
  unfold Frame.merge
  rw [if_neg hne]
  show (o2.cols.map fun c => if c ∈ R.cols then c ++ "_x" else c)
      ++ (R.cols.map fun c => if c ∈ o2.cols then c ++ "_y" else c) = _
  congr 1
  · apply List.map_congr_left
    intro d hd
    by_cases hdc : d = "channel_id"
    · subst hdc
      have hm : "channel_id" ∈ R.cols := by rw [hR]; decide
      rw [if_pos hm, if_pos rfl]
      decide
    · have hnot : d ∉ R.cols := by
        rw [hR]
        intro hmem
        rcases mem_six_cases d hmem with rfl | h5
        · exact hdc rfl
        · exact hnofive d hd h5
      rw [if_neg hnot, if_neg hdc]
  · rw [hR]
    have h1 : "channel_name" ∉ o2.cols := fun hm => hnofive _ hm (by decide)
    have h2 : "views_30d" ∉ o2.cols := fun hm => hnofive _ hm (by decide)
    have h3 : "audience_size" ∉ o2.cols := fun hm => hnofive _ hm (by decide)
    have h4 : "category" ∉ o2.cols := fun hm => hnofive _ hm (by decide)
    have h5 : "growth_30d_pct" ∉ o2.cols := fun hm => hnofive _ hm (by decide)
    show List.map _ joinedMetricCols = _
    simp only [joinedMetricCols, List.map_cons, List.map_nil, if_neg h1, if_neg h2,
      if_neg h3, if_neg h4, if_neg h5]
    congr 1

/-- Columns of the fallback map join when the account column is
`account_name` itself: the join key collapses and only `channel_id` is
appended (the opportunity table has no `channel_id` column on this path). -/
theorem map_cols_collapse (opps R : Frame)
    (hR : R.cols = ["account_name", "channel_id"]) (hcidx : "channel_id" ∉ opps.cols) :
    (Frame.merge opps R "account_name" "account_name").cols =
      opps.cols ++ ["channel_id"] := by
  have h := merge_cols_collapse opps R "account_name" ?_ ?_
  · have h2 : (["account_name", "channel_id"] : List String).erase "account_name" =
        ["channel_id"] := by decide
    rw [hR, h2] at h
    exact h
  · intro c hc
    by_cases hca : c = "account_name"
    · exact Or.inl hca
    · refine Or.inr ?_
      intro hmem
      rw [hR] at hmem
      rcases List.mem_cons.mp hmem with h1 | h2
      · exact hca h1
      · rw [List.mem_singleton.mp h2] at hc
        exact hcidx hc
  · intro c hc
    rw [hR] at hc
    rcases List.mem_cons.mp hc with rfl | h2
    · exact Or.inl rfl
    · rw [List.mem_singleton.mp h2]
      exact Or.inr hcidx

/-- Columns of the fallback map join on a distinct account column: a
colliding `account_name` label on the left is suffixed to `account_name_x`,
the map contributes `account_name` (or `account_name_y`) and `channel_id`. -/
theorem map_cols_noncollapse_gen (opps R : Frame) (acct : String)
    (hR : R.cols = ["account_name", "channel_id"]) (hne : acct ≠ "account_name")
    (hcidx : "channel_id" ∉ opps.cols) :
    (Frame.merge opps R acct "account_name").cols =
      opps.cols.map (fun d => if d = "account_name" then "account_name_x" else d)
      ++ [if "account_name" ∈ opps.cols then "account_name_y" else "account_name",
          "channel_id"] := by
  unfold Frame.merge
  rw [if_neg hne]
  show (opps.cols.map fun c => if c ∈ R.cols then c ++ "_x" else c)
      ++ (R.cols.map fun c => if c ∈ opps.cols then c ++ "_y" else c) = _
  congr 1
  · apply List.map_congr_left
    intro d hd
    by_cases hdc : d = "account_name"
    · subst hdc
      have hm : "account_name" ∈ R.cols := by rw [hR]; decide
      rw [if_pos hm, if_pos rfl]
      decide
    · have hnot : d ∉ R.cols := by
        rw [hR]
        intro hmem
        rcases List.mem_cons.mp hmem with h1 | h2
        · exact hdc h1
        · rw [List.mem_singleton.mp h2] at hd
          exact hcidx hd
      rw [if_neg hnot, if_neg hdc]
  · rw [hR]
    show List.map _ ["account_name", "channel_id"] = _
    simp only [List.map_cons, List.map_nil, if_neg hcidx]
    congr 1

/-! ## The main metrics join plus the final reordering, stage lemmas -/

/-- Row count of the main metrics join plus the reordering, given
duplicate-free metrics keys. -/
theorem final_stage_len (o2 m2 : Frame) (ch : String)
    (hndR : (colVals (m2.select joinedMetricCols) "channel_id").Nodup) :
    (reorderCols (Frame.merge o2 (m2.select joinedMetricCols) ch "channel_id")
      ch).rows.length = o2.rows.length := by
  by_cases hcc : ch = "channel_id"
  · subst hcc
    have hmr := merged_rows_collapse_six o2 (m2.select joinedMetricCols) rfl hndR
    rw [reorder_rows, List.length_map, hmr, List.length_map]
  · have hmr := merged_rows_noncollapse_six o2 (m2.select joinedMetricCols) ch hcc hndR
    rw [reorder_rows, List.length_map, hmr, List.length_map]

/-- Value preservation of an `o2` column through the main join and the
reordering, tolerating the pandas `_x` suffixing of a colliding
`channel_id` label. -/
theorem final_stage_cols (o2 m2 : Frame) (ch : String)
    (ho2wf : o2.WF)
    (hno5 : ∀ c ∈ o2.cols, c ∉ metricFields)
    (hndR : (colVals (m2.select joinedMetricCols) "channel_id").Nodup) :
    ∀ c ∈ o2.cols, (ch = "channel_id" ∨ (c ≠ "channel_id" ∧ c ≠ "channel_id_x")) →
      colVals (reorderCols (Frame.merge o2 (m2.select joinedMetricCols) ch "channel_id")
        ch) c = colVals o2 c := by
  intro c hc hcond
  by_cases hcc : ch = "channel_id"
  · subst hcc
    have hmc := merged_cols_collapse_six o2 (m2.select joinedMetricCols) rfl hno5
    have hmr := merged_rows_collapse_six o2 (m2.select joinedMetricCols) rfl hndR
    have hcm : c ∈ (Frame.merge o2 (m2.select joinedMetricCols) "channel_id"
        "channel_id").cols := by
      rw [hmc]
      exact List.mem_append_left _ hc
    rw [colVals_reorder _ _ c hcm]
    unfold colVals
    rw [hmr, List.map_map]
    apply List.map_congr_left
    intro lrow hlrow
    show cellOf (Frame.merge o2 (m2.select joinedMetricCols) "channel_id"
      "channel_id").cols (lrow ++ _) c = cellOf o2.cols lrow c
    rw [hmc]
    exact cell_left_block _ _ _ _ _ (ho2wf lrow hlrow) hc
  · rcases hcond with hcc2 | ⟨hc1, hc2⟩
    · exact absurd hcc2 hcc
    · have hmc := merged_cols_noncollapse_gen o2 (m2.select joinedMetricCols) ch rfl hcc
        hno5
      have hmr := merged_rows_noncollapse_six o2 (m2.select joinedMetricCols) ch hcc hndR
      have hcl : c ∈ o2.cols.map
          (fun d => if d = "channel_id" then "channel_id_x" else d) := by
        refine mem_map_of_fix _ _ _ hc ?_
        rw [if_neg hc1]
      have hcm : c ∈ (Frame.merge o2 (m2.select joinedMetricCols) ch "channel_id").cols := by
        rw [hmc]
        exact List.mem_append_left _ hcl
      rw [colVals_reorder _ _ c hcm]
      unfold colVals
      rw [hmr, List.map_map]
      apply List.map_congr_left
      intro lrow hlrow
      show cellOf (Frame.merge o2 (m2.select joinedMetricCols) ch "channel_id").cols
        (lrow ++ _) c = cellOf o2.cols lrow c
      rw [hmc]
      have hlen : lrow.length = (o2.cols.map
          (fun d => if d = "channel_id" then "channel_id_x" else d)).length := by
        rw [List.length_map]
        exact ho2wf lrow hlrow
      rw [cell_left_block _ _ _ _ _ hlen hcl]
      refine cellOf_map_cols _ _ _ _ ?_
      intro d hd
      by_cases hdc : d = "channel_id"
      · subst hdc
        rw [if_pos rfl]
        constructor
        · intro h
          exact absurd h.symm hc2
        · intro h
          exact absurd h.symm hc1
      · rw [if_neg hdc]

/-- Schema behaviour of the main metrics join plus the reordering under
only the five-metric-name proviso: every metric field is an output column,
and one absent from the renamed metrics table is all-null. -/
theorem final_stage_schema (o2 m2 metrics : Frame) (ch : String)
    (cm : List (String × String))
    (hmwf : metrics.WF) (hprep : prepMetrics metrics cm = .ok m2)
    (ho2wf : o2.WF)
    (hno5 : ∀ c ∈ o2.cols, c ∉ metricFields) :
    ∀ mf ∈ metricFields,
      mf ∈ (reorderCols (Frame.merge o2 (m2.select joinedMetricCols) ch "channel_id")
        ch).cols ∧
      (mf ∉ (renamedMetrics metrics cm).cols →
        ∀ row ∈
          (reorderCols (Frame.merge o2 (m2.select joinedMetricCols) ch "channel_id") ch).rows,
          (reorderCols (Frame.merge o2 (m2.select joinedMetricCols) ch "channel_id")
            ch).cell row mf = none) := by
  intro mf hmf
  have hnotin : mf ∉ o2.cols := fun hm => hno5 mf hm hmf
  obtain ⟨hne1, hne2, hne3, _, _, _⟩ := metricField_ne_suffixed mf hmf
  by_cases hcc : ch = "channel_id"
  · subst hcc
    have hmc := merged_cols_collapse_six o2 (m2.select joinedMetricCols) rfl hno5
    have hmfm : mf ∈ (Frame.merge o2 (m2.select joinedMetricCols) "channel_id"
        "channel_id").cols := by
      rw [hmc]
      refine List.mem_append_right _ ?_
      have := mem_five_of_metricFields mf hmf
      rw [six_erase_cid] at this
      exact this
    refine ⟨mem_reorder_cols _ _ _ hmfm, ?_⟩
    intro habs row hrow
    obtain ⟨mrow, hmrow, hcells⟩ := reorder_cell_of_mem _ _ row hrow
    rw [merge_rows_collapse] at hmrow
    rcases mem_joinRows _ _ _ _ _ _ _ _ _ hmrow with ⟨lrow, hlrow, hcase2⟩
    show cellOf _ row mf = none
    rw [hcells _ hmfm]
    rcases hcase2 with ⟨rfl, _⟩ | ⟨rrow, hrrow, _, rfl⟩
    · show cellOf (Frame.merge o2 (m2.select joinedMetricCols) "channel_id"
        "channel_id").cols (lrow ++ _) mf = none
      rw [hmc, cell_right_block _ _ _ _ _ (ho2wf lrow hlrow) hnotin]
      exact cellOf_replicate _ _ _
    · show cellOf (Frame.merge o2 (m2.select joinedMetricCols) "channel_id"
        "channel_id").cols (lrow ++ _) mf = none
      rw [hmc, cell_right_block _ _ _ _ _ (ho2wf lrow hlrow) hnotin]
      have hval := prep_added_null metrics cm m2 hmwf hprep mf hmf habs rrow hrrow
      rw [select_rows] at hrrow
      rcases List.mem_map.mp hrrow with ⟨r, hr, rfl⟩
      have herase : ((joinedMetricCols.map (fun c => cellOf m2.cols r c)).eraseIdx
          ((m2.select joinedMetricCols).cols.findIdx (fun c => decide (c = "channel_id"))))
          = ["channel_name", "views_30d", "audience_size", "category",
              "growth_30d_pct"].map (fun c => cellOf m2.cols r c) := rfl
      rw [herase, cellOf_map_self _ _ _ (by
        have := mem_five_of_metricFields mf hmf
        rw [six_erase_cid] at this
        exact this)]
      rw [select_cols, cellOf_map_self _ _ _ (mem_six_of_metricFields mf hmf)] at hval
      exact hval
  · have hmc := merged_cols_noncollapse_gen o2 (m2.select joinedMetricCols) ch rfl hcc hno5
    have hmfm : mf ∈ (Frame.merge o2 (m2.select joinedMetricCols) ch "channel_id").cols := by
      rw [hmc]
      refine List.mem_append_right _ ?_
      refine List.mem_cons_of_mem _ ?_
      have := mem_five_of_metricFields mf hmf
      rw [six_erase_cid] at this
      exact this
    refine ⟨mem_reorder_cols _ _ _ hmfm, ?_⟩
    intro habs row hrow
    obtain ⟨mrow, hmrow, hcells⟩ := reorder_cell_of_mem _ _ row hrow
    rw [merge_rows_noncollapse _ _ _ _ hcc] at hmrow
    rcases mem_joinRows _ _ _ _ _ _ _ _ _ hmrow with ⟨lrow, hlrow, hcase2⟩
    show cellOf _ row mf = none
    rw [hcells _ hmfm]
    have hnotmapped : mf ∉ o2.cols.map
        (fun d => if d = "channel_id" then "channel_id_x" else d) := by
      refine not_mem_map_of_ne _ _ _ ?_
      intro d hd
      by_cases hdc : d = "channel_id"
      · rw [if_pos hdc]
        exact fun e => hne2 e.symm
      · rw [if_neg hdc]
        exact fun e => hnotin (e ▸ hd)
    have hlen : lrow.length = (o2.cols.map
        (fun d => if d = "channel_id" then "channel_id_x" else d)).length := by
      rw [List.length_map]
      exact ho2wf lrow hlrow
    rcases hcase2 with ⟨rfl, _⟩ | ⟨rrow, hrrow, _, rfl⟩
    · show cellOf (Frame.merge o2 (m2.select joinedMetricCols) ch "channel_id").cols
        (lrow ++ _) mf = none
      rw [hmc, cell_right_block _ _ _ _ _ hlen hnotmapped]
      exact cellOf_replicate _ _ _
    · show cellOf (Frame.merge o2 (m2.select joinedMetricCols) ch "channel_id").cols
        (lrow ++ _) mf = none
      rw [hmc, cell_right_block _ _ _ _ _ hlen hnotmapped]
      have hval := prep_added_null metrics cm m2 hmwf hprep mf hmf habs rrow hrrow
      rw [select_rows] at hrrow
      rcases List.mem_map.mp hrrow with ⟨r, hr, rfl⟩
      have hhead : (if "channel_id" ∈ o2.cols then "channel_id_y" else "channel_id")
          ≠ mf := by
        by_cases hm : "channel_id" ∈ o2.cols
        · rw [if_pos hm]
          exact fun e => hne3 e.symm
        · rw [if_neg hm]
          exact fun e => hne1 e.symm
      have hexp : joinedMetricCols.map (fun c => cellOf m2.cols r c) =
          cellOf m2.cols r "channel_id" ::
            (["channel_name", "views_30d", "audience_size", "category",
              "growth_30d_pct"].map (fun c => cellOf m2.cols r c)) := rfl
      rw [hexp, cellOf_cons_ne _ _ _ _ _ hhead]
      rw [cellOf_map_self _ _ _ (by
        have := mem_five_of_metricFields mf hmf
        rw [six_erase_cid] at this
        exact this)]
      rw [select_cols, cellOf_map_self _ _ _ (mem_six_of_metricFields mf hmf)] at hval
      exact hval

/-- Per-row decomposition of the final output: every output row comes from
an `o2` row, agrees with it on the non-suffixed `o2` columns, and carries
null metric fields when its join key matches no renamed-metrics row. -/
theorem final_stage_rows (o2 m2 metrics : Frame) (ch : String)
    (cm : List (String × String))
    (hmwf : metrics.WF) (hprep : prepMetrics metrics cm = .ok m2)
    (ho2wf : o2.WF)
    (hno5 : ∀ c ∈ o2.cols, c ∉ metricFields) :
    ∀ row ∈ (reorderCols (Frame.merge o2 (m2.select joinedMetricCols) ch "channel_id")
        ch).rows,
      ∃ lrow2 ∈ o2.rows,
        (∀ c ∈ o2.cols, (ch = "channel_id" ∨ (c ≠ "channel_id" ∧ c ≠ "channel_id_x")) →
          (reorderCols (Frame.merge o2 (m2.select joinedMetricCols) ch "channel_id")
            ch).cell row c = cellOf o2.cols lrow2 c) ∧
        ((∀ rr ∈ (renamedMetrics metrics cm).rows,
            cellOf (renamedMetrics metrics cm).cols rr "channel_id" ≠
              cellOf o2.cols lrow2 ch) →
          ∀ mf ∈ metricFields,
            (reorderCols (Frame.merge o2 (m2.select joinedMetricCols) ch "channel_id")
              ch).cell row mf = none) := by
  intro row hrow
  obtain ⟨mrow, hmrow, hcells⟩ := reorder_cell_of_mem _ _ row hrow
  by_cases hcc : ch = "channel_id"
  · subst hcc
    have hmc := merged_cols_collapse_six o2 (m2.select joinedMetricCols) rfl hno5
    rw [merge_rows_collapse] at hmrow
    rcases mem_joinRows _ _ _ _ _ _ _ _ _ hmrow with ⟨lrow2, hlrow2, hcase2⟩
    have hpart : ∃ part, mrow = lrow2 ++ part := by
      rcases hcase2 with ⟨h, _⟩ | ⟨rrow, _, _, h⟩
      · exact ⟨_, h⟩
      · exact ⟨_, h⟩
    obtain ⟨part, hml⟩ := hpart
    refine ⟨lrow2, hlrow2, ?_, ?_⟩
    · intro c hc _
      have hcm : c ∈ (Frame.merge o2 (m2.select joinedMetricCols) "channel_id"
          "channel_id").cols := by
        rw [hmc]
        exact List.mem_append_left _ hc
      show cellOf _ row c = _
      rw [hcells _ hcm, hml]
      show cellOf (Frame.merge o2 (m2.select joinedMetricCols) "channel_id"
        "channel_id").cols (lrow2 ++ part) c = _
      rw [hmc]
      exact cell_left_block _ _ _ _ _ (ho2wf lrow2 hlrow2) hc
    · intro hnm mf hmf
      have hmf_not : mf ∉ o2.cols := fun hm => hno5 mf hm hmf
      have hmfm : mf ∈ (Frame.merge o2 (m2.select joinedMetricCols) "channel_id"
          "channel_id").cols := by
        rw [hmc]
        refine List.mem_append_right _ ?_
        have := mem_five_of_metricFields mf hmf
        rw [six_erase_cid] at this
        exact this
      rcases hcase2 with ⟨hml2, _⟩ | ⟨rrow, hrrow, hmatch, hml2⟩
      · show cellOf _ row mf = none
        rw [hcells _ hmfm, hml2]
        show cellOf (Frame.merge o2 (m2.select joinedMetricCols) "channel_id"
          "channel_id").cols (lrow2 ++ _) mf = none
        rw [hmc, cell_right_block _ _ _ _ _ (ho2wf lrow2 hlrow2) hmf_not]
        exact cellOf_replicate _ _ _
      · exfalso
        rcases prep_key_cell metrics cm m2 hmwf hprep rrow hrrow with ⟨r0, hr0, heq⟩
        refine hnm r0 hr0 ?_
        rw [← heq]
        exact hmatch
  · have hmc := merged_cols_noncollapse_gen o2 (m2.select joinedMetricCols) ch rfl hcc hno5
    rw [merge_rows_noncollapse _ _ _ _ hcc] at hmrow
    rcases mem_joinRows _ _ _ _ _ _ _ _ _ hmrow with ⟨lrow2, hlrow2, hcase2⟩
    have hpart : ∃ part, mrow = lrow2 ++ part := by
      rcases hcase2 with ⟨h, _⟩ | ⟨rrow, _, _, h⟩
      · exact ⟨_, h⟩
      · exact ⟨_, h⟩
    obtain ⟨part, hml⟩ := hpart
    have hlen : lrow2.length = (o2.cols.map
        (fun d => if d = "channel_id" then "channel_id_x" else d)).length := by
      rw [List.length_map]
      exact ho2wf lrow2 hlrow2
    refine ⟨lrow2, hlrow2, ?_, ?_⟩
    · intro c hc hcond
      rcases hcond with hcc2 | ⟨hc1, hc2⟩
      · exact absurd hcc2 hcc
      · have hcl : c ∈ o2.cols.map
            (fun d => if d = "channel_id" then "channel_id_x" else d) := by
          refine mem_map_of_fix _ _ _ hc ?_
          rw [if_neg hc1]
        have hcm : c ∈ (Frame.merge o2 (m2.select joinedMetricCols) ch
            "channel_id").cols := by
          rw [hmc]
          exact List.mem_append_left _ hcl
        show cellOf _ row c = _
        rw [hcells _ hcm, hml]
        show cellOf (Frame.merge o2 (m2.select joinedMetricCols) ch "channel_id").cols
          (lrow2 ++ part) c = _
        rw [hmc, cell_left_block _ _ _ _ _ hlen hcl]
        refine cellOf_map_cols _ _ _ _ ?_
        intro d hd
        by_cases hdc : d = "channel_id"
        · subst hdc
          rw [if_pos rfl]
          constructor
          · intro h
            exact absurd h.symm hc2
          · intro h
            exact absurd h.symm hc1
        · rw [if_neg hdc]
    · intro hnm mf hmf
      obtain ⟨hne1, hne2, _, _, _, _⟩ := metricField_ne_suffixed mf hmf
      have hmf_not : mf ∉ o2.cols := fun hm => hno5 mf hm hmf
      have hnotmapped : mf ∉ o2.cols.map
          (fun d => if d = "channel_id" then "channel_id_x" else d) := by
        refine not_mem_map_of_ne _ _ _ ?_
        intro d hd
        by_cases hdc : d = "channel_id"
        · rw [if_pos hdc]
          exact fun e => hne2 e.symm
        · rw [if_neg hdc]
          exact fun e => hmf_not (e ▸ hd)
      have hmfm : mf ∈ (Frame.merge o2 (m2.select joinedMetricCols) ch
          "channel_id").cols := by
        rw [hmc]
        refine List.mem_append_right _ ?_
        refine List.mem_cons_of_mem _ ?_
        have := mem_five_of_metricFields mf hmf
        rw [six_erase_cid] at this
        exact this
      rcases hcase2 with ⟨hml2, _⟩ | ⟨rrow, hrrow, hmatch, hml2⟩
      · show cellOf _ row mf = none
        rw [hcells _ hmfm, hml2]
        show cellOf (Frame.merge o2 (m2.select joinedMetricCols) ch "channel_id").cols
          (lrow2 ++ _) mf = none
        rw [hmc, cell_right_block _ _ _ _ _ hlen hnotmapped]
        exact cellOf_replicate _ _ _
      · exfalso
        rcases prep_key_cell metrics cm m2 hmwf hprep rrow hrrow with ⟨r0, hr0, heq⟩
        refine hnm r0 hr0 ?_
        rw [← heq]
        exact hmatch

/-! ## The channel-map fallback join, stage lemmas -/

/-- Well-formedness of the fallback map join. -/
theorem map_join_wf (opps m : Frame) (acct : String)
    (hwf : opps.WF) (hcidx : "channel_id" ∉ opps.cols) :
    (Frame.merge opps (m.select ["account_name", "channel_id"]) acct "account_name").WF := by
  by_cases hacct_an : acct = "account_name"
  · subst hacct_an
    intro row hrow
    rw [map_cols_collapse opps (m.select ["account_name", "channel_id"]) rfl hcidx]
    rw [merge_rows_collapse] at hrow
    have h := joinRows_WF opps.cols opps.rows ["account_name", "channel_id"]
      (m.select ["account_name", "channel_id"]).rows "account_name" "account_name" 1
      (fun rrow => rrow.eraseIdx 0) hwf ?_ row ?_
    · rw [List.length_append]
      simpa using h
    · intro rr hrr
      rw [select_rows] at hrr
      rcases List.mem_map.mp hrr with ⟨r, _, rfl⟩
      rfl
    · exact hrow
  · intro row hrow
    rw [map_cols_noncollapse_gen opps (m.select ["account_name", "channel_id"]) acct rfl
      hacct_an hcidx]
    rw [merge_rows_noncollapse _ _ _ _ hacct_an] at hrow
    have h := joinRows_WF opps.cols opps.rows ["account_name", "channel_id"]
      (m.select ["account_name", "channel_id"]).rows acct "account_name" 2
      (fun rrow => rrow) hwf ?_ row ?_
    · rw [List.length_append, List.length_map]
      simpa using h
    · intro rr hrr
      rw [select_rows] at hrr
      rcases List.mem_map.mp hrr with ⟨r, _, rfl⟩
      rfl
    · exact hrow

/-- No column of the fallback map join is a metric field. -/
theorem map_join_no5 (opps m : Frame) (acct : String)
    (hdisj : ∀ c ∈ opps.cols, c ∉ metricFields) (hcidx : "channel_id" ∉ opps.cols) :
    ∀ c ∈ (Frame.merge opps (m.select ["account_name", "channel_id"]) acct
      "account_name").cols, c ∉ metricFields := by
  by_cases hacct_an : acct = "account_name"
  · subst hacct_an
    rw [map_cols_collapse opps (m.select ["account_name", "channel_id"]) rfl hcidx]
    intro c hc
    rcases List.mem_append.mp hc with hc | hc
    · exact hdisj c hc
    · rw [List.mem_singleton.mp hc]
      decide
  · rw [map_cols_noncollapse_gen opps (m.select ["account_name", "channel_id"]) acct rfl
      hacct_an hcidx]
    intro c hc
    rcases List.mem_append.mp hc with hc | hc
    · rcases List.mem_map.mp hc with ⟨d, hd, rfl⟩
      by_cases hdc : d = "account_name"
      · rw [if_pos hdc]
        decide
      · rw [if_neg hdc]
        exact hdisj d hd
    · rcases List.mem_cons.mp hc with rfl | hc2
      · by_cases hm : "account_name" ∈ opps.cols
        · rw [if_pos hm]
          decide
        · rw [if_neg hm]
          decide
      · rw [List.mem_singleton.mp hc2]
        decide

/-- The fallback map join always carries a plain `channel_id` column. -/
theorem map_join_cid_mem (opps m : Frame) (acct : String)
    (hcidx : "channel_id" ∉ opps.cols) :
    "channel_id" ∈ (Frame.merge opps (m.select ["account_name", "channel_id"]) acct
      "account_name").cols := by
  by_cases hacct_an : acct = "account_name"
  · subst hacct_an
    rw [map_cols_collapse opps (m.select ["account_name", "channel_id"]) rfl hcidx]
    exact List.mem_append_right _ (by decide)
  · rw [map_cols_noncollapse_gen opps (m.select ["account_name", "channel_id"]) acct rfl
      hacct_an hcidx]
    refine List.mem_append_right _ ?_
    exact List.mem_cons_of_mem _ (by decide)

/-- The resolved account column survives the fallback map join under its
own name. -/
theorem map_join_acct_mem (opps m : Frame) (acct : String)
    (hacct_mem : acct ∈ opps.cols) (hcidx : "channel_id" ∉ opps.cols) :
    acct ∈ (Frame.merge opps (m.select ["account_name", "channel_id"]) acct
      "account_name").cols := by
  by_cases hacct_an : acct = "account_name"
  · subst hacct_an
    rw [map_cols_collapse opps (m.select ["account_name", "channel_id"]) rfl hcidx]
    exact List.mem_append_left _ hacct_mem
  · rw [map_cols_noncollapse_gen opps (m.select ["account_name", "channel_id"]) acct rfl
      hacct_an hcidx]
    refine List.mem_append_left _ ?_
    refine mem_map_of_fix _ _ _ hacct_mem ?_
    rw [if_neg hacct_an]

/-- An opportunity column not named `account_name` survives the fallback
map join under its own name. -/
theorem map_join_keep_mem (opps m : Frame) (acct c : String)
    (hcidx : "channel_id" ∉ opps.cols) (hc : c ∈ opps.cols) (hca : c ≠ "account_name") :
    c ∈ (Frame.merge opps (m.select ["account_name", "channel_id"]) acct
      "account_name").cols := by
  by_cases hacct_an : acct = "account_name"
  · subst hacct_an
    rw [map_cols_collapse opps (m.select ["account_name", "channel_id"]) rfl hcidx]
    exact List.mem_append_left _ hc
  · rw [map_cols_noncollapse_gen opps (m.select ["account_name", "channel_id"]) acct rfl
      hacct_an hcidx]
    refine List.mem_append_left _ ?_
    refine mem_map_of_fix _ _ _ hc ?_
    rw [if_neg hca]

/-- Row count of the fallback map join, given duplicate-free map keys. -/
theorem map_join_len (opps m : Frame) (acct : String)
    (hnd : (colVals m "account_name").Nodup) :
    (Frame.merge opps (m.select ["account_name", "channel_id"]) acct
      "account_name").rows.length = opps.rows.length := by
  have hnd2 : ((m.select ["account_name", "channel_id"]).rows.map
      (fun r => cellOf ["account_name", "channel_id"] r "account_name")).Nodup := by
    have h2 := hnd
    rw [← colVals_select m ["account_name", "channel_id"] "account_name" (by decide)] at h2
    exact h2
  by_cases hacct_an : acct = "account_name"
  · subst hacct_an
    rw [merge_rows_collapse, select_cols,
      joinRows_eq_map_of_nodup _ _ _ _ _ _ _ _ hnd2, List.length_map]
  · rw [merge_rows_noncollapse _ _ _ _ hacct_an, select_cols,
      joinRows_eq_map_of_nodup _ _ _ _ _ _ _ _ hnd2, List.length_map]

/-- Value preservation of an opportunity column through the fallback map
join, for columns the join cannot suffix away or shadow. -/
theorem map_join_cols_vals (opps m : Frame) (acct : String)
    (hwf : opps.WF) (hcidx : "channel_id" ∉ opps.cols)
    (hnd : (colVals m "account_name").Nodup) :
    ∀ c ∈ opps.cols, c ≠ "account_name" → c ≠ "account_name_x" →
      colVals (Frame.merge opps (m.select ["account_name", "channel_id"]) acct
        "account_name") c = colVals opps c := by
  intro c hc hca hcax
  have hnd2 : ((m.select ["account_name", "channel_id"]).rows.map
      (fun r => cellOf ["account_name", "channel_id"] r "account_name")).Nodup := by
    have h2 := hnd
    rw [← colVals_select m ["account_name", "channel_id"] "account_name" (by decide)] at h2
    exact h2
  by_cases hacct_an : acct = "account_name"
  · subst hacct_an
    have hcols := map_cols_collapse opps (m.select ["account_name", "channel_id"]) rfl hcidx
    unfold colVals
    rw [merge_rows_collapse, select_cols,
      joinRows_eq_map_of_nodup _ _ _ _ _ _ _ _ hnd2, List.map_map]
    apply List.map_congr_left
    intro lrow hlrow
    show cellOf (Frame.merge opps (m.select ["account_name", "channel_id"]) "account_name"
      "account_name").cols (lrow ++ _) c = cellOf opps.cols lrow c
    rw [hcols]
    exact cell_left_block _ _ _ _ _ (hwf lrow hlrow) hc
  · have hcols := map_cols_noncollapse_gen opps (m.select ["account_name", "channel_id"])
      acct rfl hacct_an hcidx
    unfold colVals
    rw [merge_rows_noncollapse _ _ _ _ hacct_an, select_cols,
      joinRows_eq_map_of_nodup _ _ _ _ _ _ _ _ hnd2, List.map_map]
    apply List.map_congr_left
    intro lrow hlrow
    show cellOf (Frame.merge opps (m.select ["account_name", "channel_id"]) acct
      "account_name").cols (lrow ++ _) c = cellOf opps.cols lrow c
    rw [hcols]
    have hcl : c ∈ opps.cols.map
        (fun d => if d = "account_name" then "account_name_x" else d) := by
      refine mem_map_of_fix _ _ _ hc ?_
      rw [if_neg hca]
    have hlen : lrow.length = (opps.cols.map
        (fun d => if d = "account_name" then "account_name_x" else d)).length := by
      rw [List.length_map]
      exact hwf lrow hlrow
    rw [cell_left_block _ _ _ _ _ hlen hcl]
    refine cellOf_map_cols _ _ _ _ ?_
    intro d hd
    by_cases hdc : d = "account_name"
    · subst hdc
      rw [if_pos rfl]
      constructor
      · intro h
        exact absurd h.symm hcax
      · intro h
        exact absurd h.symm hca
    · rw [if_neg hdc]

/-- Per-row behaviour of the fallback map join: every joined row comes from
an opportunity row, carries its account value, and has a null `channel_id`
cell when that account value is absent from the map. -/
theorem map_join_row_facts (opps m : Frame) (acct : String)
    (hwf : opps.WF) (hcidx : "channel_id" ∉ opps.cols)
    (hacct_mem : acct ∈ opps.cols) (hacct_cand : acct ∈ accountCandidates) :
    ∀ row2 ∈ (Frame.merge opps (m.select ["account_name", "channel_id"]) acct
        "account_name").rows,
      ∃ lrow ∈ opps.rows,
        cellOf (Frame.merge opps (m.select ["account_name", "channel_id"]) acct
          "account_name").cols row2 acct = cellOf opps.cols lrow acct ∧
        (cellOf opps.cols lrow acct ∉ colVals m "account_name" →
          cellOf (Frame.merge opps (m.select ["account_name", "channel_id"]) acct
            "account_name").cols row2 "channel_id" = none) := by
  intro row2 hrow2
  have hne_ax : acct ≠ "account_name_x" := accountCandidate_ne_anx acct hacct_cand
  by_cases hacct_an : acct = "account_name"
  · subst hacct_an
    have hcols := map_cols_collapse opps (m.select ["account_name", "channel_id"]) rfl hcidx
    rw [merge_rows_collapse, select_cols] at hrow2
    rcases mem_joinRows _ _ _ _ _ _ _ _ _ hrow2 with ⟨lrow, hlrow, hcase⟩
    have hpart : ∃ part, row2 = lrow ++ part := by
      rcases hcase with ⟨h, _⟩ | ⟨rrow, _, _, h⟩
      · exact ⟨_, h⟩
      · exact ⟨_, h⟩
    obtain ⟨part, hml⟩ := hpart
    refine ⟨lrow, hlrow, ?_, ?_⟩
    · rw [hml, hcols]
      exact cell_left_block _ _ _ _ _ (hwf lrow hlrow) hacct_mem
    · intro hun
      rcases hcase with ⟨hml2, _⟩ | ⟨rrow, hrrow, hmatch, hml2⟩
      · rw [hml2, hcols, cell_right_block _ _ _ _ _ (hwf lrow hlrow) hcidx]
        exact cellOf_replicate _ _ _
      · exfalso
        apply hun
        rw [← hmatch]
        rw [select_rows] at hrrow
        rcases List.mem_map.mp hrrow with ⟨r, hr, rfl⟩
        rw [cellOf_map_self _ _ _ (by decide)]
        exact List.mem_map_of_mem _ hr
  · have hcols := map_cols_noncollapse_gen opps (m.select ["account_name", "channel_id"])
      acct rfl hacct_an hcidx
    rw [merge_rows_noncollapse _ _ _ _ hacct_an, select_cols] at hrow2
    rcases mem_joinRows _ _ _ _ _ _ _ _ _ hrow2 with ⟨lrow, hlrow, hcase⟩
    have hpart : ∃ part, row2 = lrow ++ part := by
      rcases hcase with ⟨h, _⟩ | ⟨rrow, _, _, h⟩
      · exact ⟨_, h⟩
      · exact ⟨_, h⟩
    obtain ⟨part, hml⟩ := hpart
    have hcl : acct ∈ opps.cols.map
        (fun d => if d = "account_name" then "account_name_x" else d) := by
      refine mem_map_of_fix _ _ _ hacct_mem ?_
      rw [if_neg hacct_an]
    have hlen : lrow.length = (opps.cols.map
        (fun d => if d = "account_name" then "account_name_x" else d)).length := by
      rw [List.length_map]
      exact hwf lrow hlrow
    refine ⟨lrow, hlrow, ?_, ?_⟩
    · rw [hml, hcols, cell_left_block _ _ _ _ _ hlen hcl]
      refine cellOf_map_cols _ _ _ _ ?_
      intro d hd
      by_cases hdc : d = "account_name"
      · subst hdc
        rw [if_pos rfl]
        constructor
        · intro h
          exact absurd h.symm hne_ax
        · intro h
          exact absurd h.symm hacct_an
      · rw [if_neg hdc]
    · intro hun
      rcases hcase with ⟨hml2, _⟩ | ⟨rrow, hrrow, hmatch, hml2⟩
      · have hnotmem : "channel_id" ∉ opps.cols.map
            (fun d => if d = "account_name" then "account_name_x" else d) := by
          refine not_mem_map_of_ne _ _ _ ?_
          intro d hd
          by_cases hdc : d = "account_name"
          · rw [if_pos hdc]
            decide
          · rw [if_neg hdc]
            exact fun e => hcidx (e ▸ hd)
        rw [hml2, hcols, cell_right_block _ _ _ _ _ hlen hnotmem]
        exact cellOf_replicate _ _ _
      · exfalso
        apply hun
        rw [← hmatch]
        rw [select_rows] at hrrow
        rcases List.mem_map.mp hrrow with ⟨r, hr, rfl⟩
        rw [cellOf_map_self _ _ _ (by decide)]
        exact List.mem_map_of_mem _ hr

/-- Claim C1 (amended): for every opportunity table with N rows, metrics
table, optional channel map and rename mapping on which `merge_data`
succeeds, the merged output has exactly N rows; every opportunity column
not named `account_name`, `account_name_x`, `channel_id` or
`channel_id_x` — the labels the two joins themselves can suffix away or
synthesize — reappears value-for-value in row order; and output rows whose
channel identifier matches no metrics row carry null in all five metric
fields.  Provisos: the renamed metrics table has pairwise-distinct
`channel_id` values, the map (when used) has pairwise-distinct
`account_name` values, and the opportunity columns do not collide with the
five metrics-side field names.  (The uniqueness provisos are forced by the
counterexample: a pandas left merge emits one output row per matching
right row.) -/
theorem c1_row_preservation (opps metrics : Frame) (map_df : Option Frame)
    (cm : List (String × String)) (res : MergeResult)
    (hwf : opps.WF) (hmwf : metrics.WF)
    (hdisj : ∀ c ∈ opps.cols, c ∉ metricFields)
    (hkeys : (colVals (renamedMetrics metrics cm) "channel_id").Nodup)
    (hmapkeys : ∀ m, map_df = some m → (colVals m "account_name").Nodup)
    (hok : merge_data opps metrics map_df cm = .ok res) :
    res.frame.rows.length = opps.rows.length
    ∧ (∀ c ∈ opps.cols,
        c ≠ "account_name" → c ≠ "account_name_x" →
        c ≠ "channel_id" → c ≠ "channel_id_x" →
        colVals res.frame c = colVals opps c)
    ∧ (∀ row ∈ res.frame.rows,
        (∀ rr ∈ (renamedMetrics metrics cm).rows,
          cellOf (renamedMetrics metrics cm).cols rr "channel_id" ≠
            res.frame.cell row res.channel_column) →
        ∀ mf ∈ metricFields, res.frame.cell row mf = none) := by
  obtain ⟨o2, ch, u, m2, hres, hprep, hres_eq⟩ := merge_data_ok_elim _ _ _ _ _ hok
  subst hres_eq
  have hndR : (colVals (m2.select joinedMetricCols) "channel_id").Nodup := by
    have h2 := hkeys
    rw [← colVals_prep_cid metrics cm m2 hmwf hprep] at h2
    exact h2
  rcases resolveOpps_ok_elim _ _ _ _ _ hres with
    ⟨hu, ho2, hfind⟩ | ⟨hu, hcheq, hfind, mm, acct, hmd, hman, hmcid, hacct, ho2⟩
  · -- direct path: the channel column is found on the opportunity table
    rw [ho2]
    have hch_mem : ch ∈ opps.cols := by
      have := List.find?_some hfind
      simpa using this
    have hfind2 : channelCandidates.find? (fun c => decide (c ∈ opps.cols)) = some ch :=
      hfind
    have hch_ne : ch ≠ "channel_id_x" :=
      channelCandidate_ne_cidx ch (List.mem_of_find?_eq_some hfind2)
    refine ⟨final_stage_len opps m2 ch hndR, ?_, ?_⟩
    · intro c hc hca hcax hcc hccx
      exact final_stage_cols opps m2 ch hwf hdisj hndR c hc (Or.inr ⟨hcc, hccx⟩)
    · intro row hrow hnm mf hmf
      obtain ⟨lrow2, hlrow2, hcellc, hnull⟩ :=
        final_stage_rows opps m2 metrics ch cm hmwf hprep hwf hdisj row hrow
      have hcond : ch = "channel_id" ∨ (ch ≠ "channel_id" ∧ ch ≠ "channel_id_x") := by
        by_cases h : ch = "channel_id"
        · exact Or.inl h
        · exact Or.inr ⟨h, hch_ne⟩
      have hkeyeq := hcellc ch hch_mem hcond
      refine hnull ?_ mf hmf
      intro rr hrr e
      refine hnm rr hrr ?_
      show cellOf (renamedMetrics metrics cm).cols rr "channel_id" =
        (reorderCols (Frame.merge opps (m2.select joinedMetricCols) ch "channel_id")
          ch).cell row ch
      rw [hkeyeq]
      exact e
  · -- fallback path through the channel map
    subst hcheq
    have hcidx : "channel_id" ∉ opps.cols := by
      intro hmem
      have := List.find?_eq_none.mp hfind "channel_id" (by decide)
      simp at this
      exact this hmem
    have hmapnd : (colVals mm "account_name").Nodup := hmapkeys mm hmd
    have ho2wf : o2.WF := by
      rw [ho2]
      exact map_join_wf opps mm acct hwf hcidx
    have hno5 : ∀ c ∈ o2.cols, c ∉ metricFields := by
      rw [ho2]
      exact map_join_no5 opps mm acct hdisj hcidx
    have hmaplen : o2.rows.length = opps.rows.length := by
      rw [ho2]
      exact map_join_len opps mm acct hmapnd
    refine ⟨?_, ?_, ?_⟩
    · rw [final_stage_len o2 m2 "channel_id" hndR]
      exact hmaplen
    · intro c hc hca hcax hcc hccx
      have hc_o2 : c ∈ o2.cols := by
        rw [ho2]
        exact map_join_keep_mem opps mm acct c hcidx hc hca
      rw [final_stage_cols o2 m2 "channel_id" ho2wf hno5 hndR c hc_o2 (Or.inl rfl), ho2]
      exact map_join_cols_vals opps mm acct hwf hcidx hmapnd c hc hca hcax
    · intro row hrow hnm mf hmf
      obtain ⟨lrow2, hlrow2, hcellc, hnull⟩ :=
        final_stage_rows o2 m2 metrics "channel_id" cm hmwf hprep ho2wf hno5 row hrow
      have hch2 : "channel_id" ∈ o2.cols := by
        rw [ho2]
        exact map_join_cid_mem opps mm acct hcidx
      have hkeyeq := hcellc "channel_id" hch2 (Or.inl rfl)
      refine hnull ?_ mf hmf
      intro rr hrr e
      refine hnm rr hrr ?_
      show cellOf (renamedMetrics metrics cm).cols rr "channel_id" =
        (reorderCols (Frame.merge o2 (m2.select joinedMetricCols) "channel_id"
          "channel_id") "channel_id").cell row "channel_id"
      rw [hkeyeq]
      exact e

/-- Claim C2 (amended): whichever subset of the five metric fields the
metrics table carries, a successful `merge_data` output contains all five
metric columns, and the ones absent from the (renamed) input are all-null —
provided none of the opportunity columns collides with the five
metrics-side names.  (The proviso is forced by the counterexample: a
colliding column is suffixed `_x`/`_y` by the join and the plain name
disappears.) -/
theorem c2_schema_stability (opps metrics : Frame) (map_df : Option Frame)
    (cm : List (String × String)) (res : MergeResult)
    (hwf : opps.WF) (hmwf : metrics.WF)
    (hdisj : ∀ c ∈ opps.cols, c ∉ metricFields)
    (hok : merge_data opps metrics map_df cm = .ok res) :
    ∀ mf ∈ metricFields,
      mf ∈ res.frame.cols ∧
      (mf ∉ (renamedMetrics metrics cm).cols →
        ∀ row ∈ res.frame.rows, res.frame.cell row mf = none) := by
  obtain ⟨o2, ch, u, m2, hres, hprep, hres_eq⟩ := merge_data_ok_elim _ _ _ _ _ hok
  subst hres_eq
  rcases resolveOpps_ok_elim _ _ _ _ _ hres with
    ⟨hu, ho2, hfind⟩ | ⟨hu, hcheq, hfind, mm, acct, hmd, hman, hmcid, hacct, ho2⟩
  · -- direct path
    rw [ho2]
    exact final_stage_schema opps m2 metrics ch cm hmwf hprep hwf hdisj
  · -- fallback path
    subst hcheq
    have hcidx : "channel_id" ∉ opps.cols := by
      intro hmem
      have := List.find?_eq_none.mp hfind "channel_id" (by decide)
      simp at this
      exact this hmem
    have ho2wf : o2.WF := by
      rw [ho2]
      exact map_join_wf opps mm acct hwf hcidx
    have hno5 : ∀ c ∈ o2.cols, c ∉ metricFields := by
      rw [ho2]
      exact map_join_no5 opps mm acct hdisj hcidx
    exact final_stage_schema o2 m2 metrics "channel_id" cm hmwf hprep ho2wf hno5

/-- Counterexample for claim C1 as stated: a single opportunity row whose
channel identifier matches two metrics rows produces two output rows, not
one — a pandas left merge emits one row per matching right row. -/
theorem c1_counterexample :
    (merge_data ⟨["channel_id"], [[some "UC1"]]⟩
        ⟨["channel_id"], [[some "UC1"], [some "UC1"]]⟩ none []).map
      (fun r => r.frame.rows.length) = .ok 2 ∧
    (⟨["channel_id"], [[some "UC1"]]⟩ : Frame).rows.length = 1 :=
  ⟨rfl, rfl⟩

/-- Witness for C1 at a concrete duplicate-free input. -/
theorem c1_row_preservation_witness :
    c1WRes.frame.rows.length = wOpps.rows.length ∧
    colVals c1WRes.frame "Account.Name" = colVals wOpps "Account.Name" := by
  have h := c1_row_preservation wOpps wMetrics none [] c1WRes (by decide) (by decide)
    (by decide) (by decide) (fun m hm => Option.noConfusion hm) rfl
  exact ⟨h.1, h.2.1 "Account.Name" (by decide) (by decide) (by decide) (by decide)
    (by decide)⟩

/-- Counterexample for claim C2 as stated: an opportunity table already
carrying a `views_30d` column makes the join suffix both copies, so the
merged output has `views_30d_x` and `views_30d_y` but no `views_30d`
column. -/
theorem c2_counterexample :
    (merge_data ⟨["channel_id", "views_30d"], [[some "UC1", some "7"]]⟩
        ⟨["channel_id"], [[some "UC1"]]⟩ none []).map
      (fun r => decide ("views_30d" ∈ r.frame.cols)) = .ok false :=
  rfl

/-- Witness for C2: with a metrics table carrying only `channel_id` and
`views_30d`, the output still has all five metric columns and the absent
`audience_size` is null. -/
theorem c2_schema_stability_witness :
    ("views_30d" ∈ c1WRes.frame.cols) ∧ ("audience_size" ∈ c1WRes.frame.cols) ∧
    ("audience_size" ∉ (renamedMetrics wMetrics []).cols →
      ∀ row ∈ c1WRes.frame.rows, c1WRes.frame.cell row "audience_size" = none) := by
  have h := c2_schema_stability wOpps wMetrics none [] c1WRes (by decide) (by decide)
    (by decide) rfl
  exact ⟨(h "views_30d" (by decide)).1, (h "audience_size" (by decide)).1,
    (h "audience_size" (by decide)).2⟩

/-- Claim C3 (amended): for an opportunity table with no resolvable channel
column but a resolvable account column, and a supplied map with
`account_name` and `channel_id`, a successful `merge_data` joins through
the map: it records that the map was used, uses `channel_id` as the join
key, keeps a `channel_id` column in the output, and gives null metric
fields to output rows whose account value is absent from the map —
provided the (renamed) metrics table has no null `channel_id` entries and
the opportunity columns avoid the metrics-side names.  (The null-free
proviso is forced by the counterexample: pandas matches NaN keys, so an
unmapped opportunity row, whose resolved key is null, picks up the metrics
of a null-keyed metrics row.) -/
theorem c3_map_fallback (opps metrics map_ : Frame) (cm : List (String × String))
    (res : MergeResult) (acct : String)
    (hwf : opps.WF) (hmwf : metrics.WF)
    (hch : _find_channel_column opps = none)
    (hacct : _select_account_column opps = some acct)
    (hdisj : ∀ c ∈ opps.cols, c ∉ metricFields)
    (hnonull : (none : Val) ∉ colVals (renamedMetrics metrics cm) "channel_id")
    (hok : merge_data opps metrics (some map_) cm = .ok res) :
    res.map_used = true ∧ res.channel_column = "channel_id" ∧
    "channel_id" ∈ res.frame.cols ∧
    ∀ row ∈ res.frame.rows,
      res.frame.cell row acct ∉ colVals map_ "account_name" →
      ∀ mf ∈ metricFields, res.frame.cell row mf = none := by
  obtain ⟨o2, ch, u, m2, hres, hprep, hres_eq⟩ := merge_data_ok_elim _ _ _ _ _ hok
  subst hres_eq
  rcases resolveOpps_ok_elim _ _ _ _ _ hres with
    ⟨hu, ho2, hfind⟩ | ⟨hu, hcheq, hfind, mm, acct2, hmd, hman, hmcid, hacct2, ho2⟩
  · rw [hch] at hfind
    cases hfind
  · subst hcheq
    have hmm : map_ = mm := Option.some.inj hmd
    subst hmm
    have hacct_eq : acct = acct2 := by
      rw [hacct] at hacct2
      exact Option.some.inj hacct2
    subst hacct_eq
    have hcidx : "channel_id" ∉ opps.cols := by
      intro hmem
      have := List.find?_eq_none.mp hfind "channel_id" (by decide)
      simp at this
      exact this hmem
    have hacct_mem : acct ∈ opps.cols := by
      have := List.find?_some hacct
      simpa using this
    have hacct2 : accountCandidates.find? (fun c => decide (c ∈ opps.cols)) = some acct :=
      hacct
    have hacct_cand : acct ∈ accountCandidates := List.mem_of_find?_eq_some hacct2
    have ho2wf : o2.WF := by
      rw [ho2]
      exact map_join_wf opps map_ acct hwf hcidx
    have hno5 : ∀ c ∈ o2.cols, c ∉ metricFields := by
      rw [ho2]
      exact map_join_no5 opps map_ acct hdisj hcidx
    have hch2 : "channel_id" ∈ o2.cols := by
      rw [ho2]
      exact map_join_cid_mem opps map_ acct hcidx
    have hacct_o2 : acct ∈ o2.cols := by
      rw [ho2]
      exact map_join_acct_mem opps map_ acct hacct_mem hcidx
    have hcid_out : "channel_id" ∈ (reorderCols (Frame.merge o2
        (m2.select joinedMetricCols) "channel_id" "channel_id") "channel_id").cols := by
      have hmc := merged_cols_collapse_six o2 (m2.select joinedMetricCols) rfl hno5
      refine mem_reorder_cols _ _ _ ?_
      rw [hmc]
      exact List.mem_append_left _ hch2
    refine ⟨hu, rfl, hcid_out, ?_⟩
    intro row hrow hnotacct mf hmf
    obtain ⟨lrow2, hlrow2, hcellc, hnull⟩ :=
      final_stage_rows o2 m2 metrics "channel_id" cm hmwf hprep ho2wf hno5 row hrow
    have hacct_cell := hcellc acct hacct_o2 (Or.inl rfl)
    have hlrow2m : lrow2 ∈ (Frame.merge opps (map_.select ["account_name", "channel_id"])
        acct "account_name").rows := by
      rw [← ho2]
      exact hlrow2
    obtain ⟨lrow, hlrow, hacct_map, hnullkey⟩ :=
      map_join_row_facts opps map_ acct hwf hcidx hacct_mem hacct_cand lrow2 hlrow2m
    have hacct_out : (reorderCols (Frame.merge o2 (m2.select joinedMetricCols) "channel_id"
        "channel_id") "channel_id").cell row acct = cellOf opps.cols lrow acct := by
      rw [hacct_cell]
      show cellOf o2.cols lrow2 acct = _
      rw [ho2]
      exact hacct_map
    have hun : cellOf opps.cols lrow acct ∉ colVals map_ "account_name" := by
      rw [← hacct_out]
      exact hnotacct
    have hkey_none : cellOf o2.cols lrow2 "channel_id" = none := by
      rw [ho2]
      exact hnullkey hun
    refine hnull ?_ mf hmf
    intro rr hrr e
    rw [hkey_none] at e
    apply hnonull
    rw [← e]
    exact List.mem_map_of_mem _ hrr

/-- Counterexample for claim C3 as stated: the opportunity `Bob` is absent
from the map, yet the merged output gives it `views_30d = 99`: the unmapped
row's resolved channel key is null, and pandas matches it with the metrics
row whose `channel_id` is null. -/
theorem c3_counterexample :
    (merge_data ⟨["Account.Name"], [[some "Bob"]]⟩
        ⟨["channel_id", "views_30d"], [[none, some "99"]]⟩
        (some ⟨["account_name", "channel_id"], [[some "Acme", some "UC1"]]⟩) []).map
      (fun r => (r.map_used, r.frame.cell (r.frame.rows.getD 0 []) "views_30d")) =
      .ok (true, some "99") ∧
    (some "Bob" : Val) ∉
      colVals ⟨["account_name", "channel_id"], [[some "Acme", some "UC1"]]⟩
        "account_name" := by
  exact ⟨rfl, by decide⟩

/-- Witness for C3 on the concrete fallback scenario. -/
theorem c3_map_fallback_witness :
    wRes10.map_used = true ∧ wRes10.channel_column = "channel_id" ∧
    "channel_id" ∈ wRes10.frame.cols := by
  have h := c3_map_fallback wOppsNoCh wMetrics wMap [] wRes10 "Account.Name"
    (by decide) (by decide) (by decide) (by decide) (by decide) (by decide) rfl
  exact ⟨h.1, h.2.1, h.2.2.1⟩

/-! ## Frame property of `merge_data` (claim C7) -/

theorem getD_append_lt (σ l : List Frame) (j : Nat) (hj : j < σ.length) :
    (σ ++ l).getD j emptyFrame = σ.getD j emptyFrame := by
  rw [List.getD_eq_getElem?_getD, List.getD_eq_getElem?_getD, List.getElem?_append_left hj]

theorem getD_set_ne (σ : List Frame) (i j : Nat) (a : Frame) (hne : i ≠ j) :
    (σ.set i a).getD j emptyFrame = σ.getD j emptyFrame := by
  rw [List.getD_eq_getElem?_getD, List.getD_eq_getElem?_getD, List.getElem?_set_ne hne]

theorem merge_dataS_finish_getD (σ : Store) (o m : Nat) (ch : String) (u : Bool)
    (cm : List (String × String)) (j : Nat) (hj : j < σ.length) (hjm : j ≠ m) :
    ((merge_dataS_finish σ o m ch u cm).2).getD j emptyFrame = σ.getD j emptyFrame := by
  by_cases hcm : cm.isEmpty = true
  · simp only [merge_dataS_finish, hcm, if_true]
    split
    · rfl
    · rw [getD_append_lt _ _ j (by simpa using Nat.lt_succ_of_lt (by simpa using hj)),
        getD_append_lt _ _ j (by simpa using hj),
        getD_set_ne _ _ _ _ (fun e => hjm e.symm)]
  · have hcm2 : cm.isEmpty = false := by simpa using hcm
    simp only [merge_dataS_finish, hcm2, Bool.false_eq_true, if_false]
    split
    · exact getD_append_lt _ _ j hj
    · have hj1 : j < ((σ ++ [(readF σ m).rename (invertColmap cm)]).set σ.length
          (addMissingMetricCols (readF (σ ++ [(readF σ m).rename (invertColmap cm)])
            σ.length))).length := by
        simp
        omega
      rw [getD_append_lt _ _ j (by simpa using Nat.lt_succ_of_lt (by simpa using hj1)),
        getD_append_lt _ _ j hj1,
        getD_set_ne _ _ _ _ (fun e => absurd e.symm (Nat.ne_of_lt hj)),
        getD_append_lt _ _ j hj]

/-- Claim C7: `merge_data` leaves every caller-supplied frame unchanged,
whether it succeeds or raises.  In the store model every Python-level
mutation of the function body — the rename rebinding, the in-place
`metrics[c] = None` loop, the merge results and the `attrs` assignments —
touches only frames freshly allocated inside the call (the defensive
copies of lines 73-74 and 85 and the join results), never a frame that
existed before the call.  The source function contains no file reads,
file writes or logging calls, so the store is the only state it can
touch. -/
theorem c7_inputs_unchanged (σ : Store) (oppsId metricsId : Nat) (mapId : Option Nat)
    (cm : List (String × String)) (j : Nat) (hj : j < σ.length) :
    ((merge_dataS σ oppsId metricsId mapId cm).2).getD j emptyFrame =
      σ.getD j emptyFrame := by
  have hj1 : j < (σ ++ [(readF σ oppsId).copy]).length := by
    simp
    omega
  have hj2 : j < (σ ++ [(readF σ oppsId).copy] ++ [(readF σ metricsId).copy]).length := by
    simp
    omega
  simp only [merge_dataS]
  split
  · -- channel column found: straight to the finish stage
    rw [merge_dataS_finish_getD _ _ _ _ _ _ j hj2 (by simp; omega),
      getD_append_lt _ _ j hj1, getD_append_lt _ _ j hj]
  · split
    · -- no channel column and no map: early error
      rw [getD_append_lt _ _ j hj1, getD_append_lt _ _ j hj]
    · -- map supplied
      split
      · -- map lacks required columns
        rw [getD_append_lt _ _ j hj2, getD_append_lt _ _ j hj1, getD_append_lt _ _ j hj]
      · split
        · -- no account column
          rw [getD_append_lt _ _ j hj2, getD_append_lt _ _ j hj1, getD_append_lt _ _ j hj]
        · -- fallback join allocated, then the finish stage
          rw [merge_dataS_finish_getD _ _ _ _ _ _ j (by simp; omega) (by simp; omega),
            getD_append_lt _ _ j (by simp; omega),
            getD_append_lt _ _ j hj2, getD_append_lt _ _ j hj1, getD_append_lt _ _ j hj]

/-- Witness for C7 on a concrete two-frame store. -/
theorem c7_inputs_unchanged_witness :
    ((merge_dataS [wOpps, wMetrics] 0 1 none []).2).getD 0 emptyFrame =
      [wOpps, wMetrics].getD 0 emptyFrame :=
  c7_inputs_unchanged [wOpps, wMetrics] 0 1 none [] 0 (by decide)

end SFMerge
